import Mathlib

set_option maxHeartbeats 1000000

/-!
Verification of the node-revlog-converter core: the DBC signal-catalog loader
and CAN decoder (revDBC) and the REVLOG → WPILOG record transcoder
(revlogParser).  JavaScript numbers are modeled as exact rationals extended
with NaN and signed infinities; floating-point rounding of arithmetic is not
modeled (no claim in scope depends on it — the exact-integer decode path
performs no floating-point arithmetic).  Byte buffers are `List ℕ` with reads
taken mod 256.  BigInt mask-and-shift `(x >> s) & ((1n << l) - 1n)` is written
`x / 2 ^ s % 2 ^ l`.  Output is modeled as the sequence of emitted records;
the byte-level framing of each record and the fixed file header are abstracted
away (no claim concerns them).
-/

namespace Revlog

/-- JS IEEE-754 double values, modeled as exact rationals plus NaN and the two
signed infinities (`inf true` is `+Infinity`). -/
inductive JsNum where
  | nan : JsNum
  | inf : Bool → JsNum
  | fin : ℚ → JsNum
deriving DecidableEq, Repr

/-- A JS runtime value as produced by the decoder and consumed by the writer
(`string | number | boolean | bigint`).  `.int` is a BigInt, `.num` a number. -/
inductive JsValue where
  | int : ℤ → JsValue
  | num : JsNum → JsValue
  | str : String → JsValue
  | bool : Bool → JsValue
deriving DecidableEq, Repr

/-- JS `<` on numbers: any comparison involving NaN is false. -/
def jsLt : JsNum → JsNum → Bool
  | .nan, _ => false
  | _, .nan => false
  | .fin a, .fin b => decide (a < b)
  | .fin _, .inf b => b
  | .inf a, .fin _ => !a
  | .inf a, .inf b => !a && b

/-- JS `>` on numbers. -/
def jsGt (a b : JsNum) : Bool := jsLt b a

/-- JS `===` on numbers: NaN is not equal to anything, including itself. -/
def jsEq : JsNum → JsNum → Bool
  | .fin a, .fin b => decide (a = b)
  | .inf a, .inf b => a == b
  | _, _ => false

/-- JS `+` on numbers (rounding of finite results not modeled). -/
def jsAdd : JsNum → JsNum → JsNum
  | .nan, _ => .nan
  | _, .nan => .nan
  | .inf a, .inf b => if a = b then .inf a else .nan
  | .inf a, .fin _ => .inf a
  | .fin _, .inf b => .inf b
  | .fin a, .fin b => .fin (a + b)

/-- JS `*` on numbers (rounding of finite results not modeled). -/
def jsMul : JsNum → JsNum → JsNum
  | .nan, _ => .nan
  | _, .nan => .nan
  | .inf a, .inf b => .inf (a == b)
  | .inf a, .fin q => if q = 0 then .nan else .inf (a == decide (0 < q))
  | .fin q, .inf b => if q = 0 then .nan else .inf (b == decide (0 < q))
  | .fin a, .fin b => .fin (a * b)

/-- Read one byte of a buffer (in-bounds at every use site; mod 256 keeps the
model total on arbitrary `List ℕ`). -/
def readByte (data : List ℕ) (i : ℕ) : ℕ := data.getD i 0 % 256

/-- Little-endian byte-list to natural number. -/
def bytesToNatLE : List ℕ → ℕ
  | [] => 0
  | b :: bs => b % 256 + 256 * bytesToNatLE bs

/-- Model of `Buffer.readUIntLE(cursor, len)` / `readUInt32LE` / `readBigUInt64LE`. -/
def readUIntLE (data : List ℕ) (cursor len : ℕ) : ℕ :=
  bytesToNatLE ((data.drop cursor).take len)

/-- Model of `Buffer.alloc n` — n zero bytes. -/
def zeros (n : ℕ) : List ℕ := List.replicate n 0

/-- Exact value of an IEEE-754 bit pattern with the given exponent and
mantissa field widths (11/52 for double, 8/23 for float).  Decoding a bit
pattern to its value is exact, so this introduces no approximation. -/
def decodeIEEE (expBits mantBits : ℕ) (bits : ℕ) : JsNum :=
  let mant := bits % 2 ^ mantBits
  let expo := bits / 2 ^ mantBits % 2 ^ expBits
  let sign := bits / 2 ^ (mantBits + expBits) % 2
  if expo = 2 ^ expBits - 1 then
    if mant = 0 then .inf (sign = 0) else .nan
  else
    let denomExp := 2 ^ (expBits - 1) - 1 + mantBits
    let mag : ℚ :=
      (if expo = 0 then (mant * 2 : ℚ) else (2 ^ mantBits + mant : ℚ) * 2 ^ expo) /
        (2 ^ denomExp)
    .fin (if sign = 1 then -mag else mag)

/-- Model of `Buffer.readDoubleLE(off)`; throws a RangeError when fewer than 8 bytes
remain. -/
def readDoubleLE (data : List ℕ) (off : ℕ) : Except Unit JsNum :=
  if off + 8 ≤ data.length then .ok (decodeIEEE 11 52 (readUIntLE data off 8))
  else .error ()

/-- Model of `Buffer.readFloatLE(off)`; throws a RangeError when fewer than 4 bytes
remain. -/
def readFloatLE (data : List ℕ) (off : ℕ) : Except Unit JsNum :=
  if off + 4 ≤ data.length then .ok (decodeIEEE 8 23 (readUIntLE data off 4))
  else .error ()

/-- The `dataType` field of a signal: `'int' | 'float' | 'double'`. -/
inductive DataType where
  | int : DataType
  | float : DataType
  | double : DataType
deriving DecidableEq, Repr

/-- The `Signal` interface of revDBC.  Numeric fields hold JS numbers. -/
structure Signal where
  name : String
  startBit : ℕ
  length : ℕ
  isLittleEndian : Bool
  isSigned : Bool
  factor : JsNum
  offset : JsNum
  min : JsNum
  max : JsNum
  unit : String
  description : Option String := none
  dataType : DataType
deriving DecidableEq, Repr

/-- The `Message` interface; `signals` is the entry list of the JS `Map`
in insertion order. -/
structure Message where
  id : ℕ
  name : String
  dlc : ℕ
  sender : String
  signals : List (String × Signal)
deriving DecidableEq, Repr

/-- First-match lookup in an association list (JS `Map.get`). -/
def alistGet {α β : Type} [DecidableEq α] : List (α × β) → α → Option β
  | [], _ => none
  | (k, v) :: rest, key => if k = key then some v else alistGet rest key

/-- JS `Map.set`: replace the value at an existing key in place, otherwise
append a new entry. -/
def alistSet {α β : Type} [DecidableEq α] : List (α × β) → α → β → List (α × β)
  | [], key, v => [(key, v)]
  | (k, w) :: rest, key, v =>
    if k = key then (key, v) :: rest else (k, w) :: alistSet rest key v

/-- The `Dbc` class.  JS aliasing (the `messages` and `messagesById` maps
share `Message` objects, which the loader mutates in place) is modeled by a
store `msgs` of message objects in creation order with both maps holding
indices into it. -/
structure Dbc where
  msgs : List Message
  byName : List (String × ℕ)
  byId : List (ℕ × ℕ)
deriving DecidableEq, Repr

/-- Model of `dbc.messages.get(name)`. -/
def Dbc.msgGet (d : Dbc) (name : String) : Option Message :=
  (alistGet d.byName name).bind fun i => d.msgs.get? i

/-- Model of `dbc.messagesById.get(id)`. -/
def Dbc.msgGetById (d : Dbc) (id : ℕ) : Option Message :=
  (alistGet d.byId id).bind fun i => d.msgs.get? i

/-- Model of `[...dbc.messages.values()]` in key-insertion order. -/
def Dbc.msgValues (d : Dbc) : List Message :=
  d.byName.filterMap fun kv => d.msgs.get? kv.2

/-- The `BoundSignal` interface. -/
structure BoundSignal where
  signal : Signal
  value : JsValue
  rawValue : JsValue
deriving DecidableEq, Repr

/-- The `DecodedMessage` interface; `boundSignals` is the entry list of the
JS `Map`. -/
structure DecodedMessage where
  id : ℕ
  name : String
  boundSignals : List (String × BoundSignal)
deriving DecidableEq, Repr

/-- The two sequential clamping statements of `CanDecoder.decode`:
`if (v < min) v = min; if (v > max) v = max;`. -/
def clampNum (v lo hi : JsNum) : JsNum :=
  let v1 := if jsLt v lo then lo else v
  if jsGt v1 hi then hi else v1

/-- The clamp step of `CanDecoder.decode`: applied only when the physical
value is a JS number (`typeof physicalValue === 'number'`) and
`signal.min !== 0 || signal.max !== 0`. -/
def applyClamp (s : Signal) (v : JsValue) : JsValue :=
  match v with
  | .num x =>
    if ¬ jsEq s.min (.fin 0) ∨ ¬ jsEq s.max (.fin 0) then .num (clampNum x s.min s.max)
    else .num x
  | other => other

/-- The per-signal body of `CanDecoder.decode`.  `buf64` is
`data.readBigUInt64LE(0)`.  `.error` models a thrown exception: an
out-of-range `readDoubleLE`/`readFloatLE`. -/
def decodeSignal (data : List ℕ) (buf64 : ℕ) (s : Signal) : Except Unit BoundSignal :=
  if s.dataType = .float ∨ s.dataType = .double then
    let byteOffset := s.startBit / 8
    let isDouble := s.dataType = .double ∨ s.length = 64
    match (if isDouble then readDoubleLE data byteOffset else readFloatLE data byteOffset) with
    | .error e => .error e
    | .ok phys => .ok ⟨s, applyClamp s (.num phys), .num phys⟩
  else if s.isLittleEndian then
    -- rawBig = (bufferAsBigInt >> startBit) & ((1n << length) - 1n)
    let raw := buf64 / 2 ^ s.startBit % 2 ^ s.length
    -- two's-complement sign extension when the sign bit 1n << (length - 1) is
    -- set; for length 0 the JS mask 1n << -1n is 0n (a negative BigInt shift
    -- is an opposite-direction shift), so the test is false — as here, since
    -- raw < 2 ^ 0 forces raw = 0
    let rawZ : ℤ :=
      if s.isSigned ∧ raw / 2 ^ (s.length - 1) % 2 = 1 then (raw : ℤ) - 2 ^ s.length
      else (raw : ℤ)
    let value : JsValue :=
      if jsEq s.factor (.fin 1) ∧ jsEq s.offset (.fin 0) then .int rawZ
      else .num (jsAdd (jsMul (.fin (rawZ : ℚ)) s.factor) s.offset)
    .ok ⟨s, applyClamp s value, .int rawZ⟩
  else
    -- big endian: rawValue and physicalValue keep their number-0 initial
    -- values (the 16-bit special case assigns 0 explicitly, same result)
    let phys : JsValue :=
      if s.startBit % 8 = 7 ∧ s.length = 16 then .num (.fin 0) else .num (.fin 0)
    .ok ⟨s, applyClamp s phys, .num (.fin 0)⟩

/-- The `for (const signal of message.signals.values())` loop of
`CanDecoder.decode`, building `boundSignals` with `Map.set(signal.name, …)`. -/
def decodeSignals (data : List ℕ) (buf64 : ℕ) :
    List (String × Signal) → List (String × BoundSignal) →
    Except Unit (List (String × BoundSignal))
  | [], acc => .ok acc
  | (_, s) :: rest, acc =>
    match decodeSignal data buf64 s with
    | .error e => .error e
    | .ok bs => decodeSignals data buf64 rest (alistSet acc s.name bs)

/-- Model of `CanDecoder.decode(frame)`: `.ok none` is the `null` "no match" result;
`.error` a thrown exception.  The decoder's `database` is always set at the
single construction site in `parseREVLOG`, so it is passed directly. -/
def decode (dbc : Dbc) (frameId : ℕ) (frameData : List ℕ) :
    Except Unit (Option DecodedMessage) :=
  match dbc.msgGetById frameId with
  | none => .ok none
  | some message =>
    let neededLength := max message.dlc 8
    let data :=
      if frameData.length < neededLength then
        frameData ++ zeros (neededLength - frameData.length)
      else frameData
    let buf64 := readUIntLE data 0 8
    match decodeSignals data buf64 message.signals [] with
    | .error e => .error e
    | .ok bss => .ok (some ⟨message.id, message.name, bss⟩)

/-- An emitted WPILOG record, abstracting the byte framing: a control record
carries (assigned id, entry name, type string, metadata); a data record
carries (entry id, the registered type it was encoded under, payload,
timestamp in microseconds). -/
inductive Payload where
  | boolP : Bool → Payload
  | int64P : ℤ → Payload
  | floatP : JsNum → Payload
  | doubleP : JsNum → Payload
  | strP : String → Payload
deriving DecidableEq, Repr

inductive OutRec where
  | control : ℕ → String → String → String → OutRec
  | data : ℕ → String → Payload → ℕ → OutRec
deriving DecidableEq, Repr

/-- The writer state of one `parseREVLOG` run: the `RECORDS` map (name →
{id, type}, insertion-ordered), `NEXT_RECORD_ID`, the emitted records in
order, and the `recordsProcessed` flag. -/
structure WState where
  records : List (String × ℕ × String)
  nextId : ℕ
  out : List OutRec
  processed : Bool
deriving DecidableEq, Repr

def initState : WState := ⟨[], 1, [], false⟩

/-- JS truthiness of the values that can reach `entryValue ? 1 : 0`. -/
def truthy : JsValue → Bool
  | .int i => decide (i ≠ 0)
  | .num .nan => false
  | .num (.inf _) => true
  | .num (.fin q) => decide (q ≠ 0)
  | .str s => decide (s ≠ "")
  | .bool b => b

/-- Model of `Math.round`: round half toward positive infinity. -/
def jsRound (q : ℚ) : ℤ := ⌊q + 1 / 2⌋

def isWSChar (c : Char) : Bool :=
  c = ' ' ∨ c = '\t' ∨ c = '\n' ∨ c = '\r' ∨ c = '\x0b' ∨ c = '\x0c'

def trimWS (cs : List Char) : List Char :=
  ((cs.dropWhile isWSChar).reverse.dropWhile isWSChar).reverse

def digitVal (c : Char) : ℕ := c.toNat - '0'.toNat

def decDigitsVal : List Char → Option ℕ
  | [] => none
  | cs => if cs.all Char.isDigit then some (cs.foldl (fun a c => 10 * a + digitVal c) 0) else none

def hexDigitVal (c : Char) : ℕ :=
  if c.isDigit then digitVal c
  else if 'a' ≤ c ∧ c ≤ 'f' then c.toNat - 'a'.toNat + 10
  else c.toNat - 'A'.toNat + 10

def isHexDigit (c : Char) : Bool :=
  c.isDigit ∨ ('a' ≤ c ∧ c ≤ 'f') ∨ ('A' ≤ c ∧ c ≤ 'F')

def radixVal (radix : ℕ) (isDig : Char → Bool) (dVal : Char → ℕ) : List Char → Option ℕ
  | [] => none
  | cs => if cs.all isDig then some (cs.foldl (fun a c => radix * a + dVal c) 0) else none

/-- Model of the JS `BigInt(string)` conversion: trimmed empty string is `0n`,
decimal with optional sign, and `0x`/`0o`/`0b` radix literals; anything else
throws (`none`). -/
def jsBigIntOfString (s : String) : Option ℤ :=
  match trimWS s.data with
  | [] => some 0
  | '0' :: 'x' :: rest => (radixVal 16 isHexDigit hexDigitVal rest).map (fun n => (n : ℤ))
  | '0' :: 'X' :: rest => (radixVal 16 isHexDigit hexDigitVal rest).map (fun n => (n : ℤ))
  | '0' :: 'o' :: rest => (radixVal 8 (fun c => '0' ≤ c ∧ c ≤ '7') digitVal rest).map (fun n => (n : ℤ))
  | '0' :: 'O' :: rest => (radixVal 8 (fun c => '0' ≤ c ∧ c ≤ '7') digitVal rest).map (fun n => (n : ℤ))
  | '0' :: 'b' :: rest => (radixVal 2 (fun c => c = '0' ∨ c = '1') digitVal rest).map (fun n => (n : ℤ))
  | '0' :: 'B' :: rest => (radixVal 2 (fun c => c = '0' ∨ c = '1') digitVal rest).map (fun n => (n : ℤ))
  | '-' :: rest => (decDigitsVal rest).map (fun n => -(n : ℤ))
  | '+' :: rest => (decDigitsVal rest).map (fun n => (n : ℤ))
  | cs => (decDigitsVal cs).map (fun n => (n : ℤ))

/-- The optional decimal-exponent tail of a JS numeric string literal. -/
def jsNumExpPart (app : ℚ → JsNum) (mant : ℚ) (r : List Char) : JsNum :=
  let signed : Bool × List Char :=
    match r with
    | '-' :: rr => (true, rr)
    | '+' :: rr => (false, rr)
    | _ => (false, r)
  match decDigitsVal signed.2 with
  | some e => app (if signed.1 then mant / 10 ^ e else mant * 10 ^ e)
  | none => .nan

/-- Model of the JS `Number(string)` conversion (decimal literals with
optional fraction and exponent, `Infinity`, hex literals; whitespace-trimmed
empty string is 0; anything else NaN). -/
def jsNumberOfString (s : String) : JsNum :=
  match trimWS s.data with
  | [] => .fin 0
  | cs =>
    let signed : Bool × List Char :=
      match cs with
      | '-' :: rest => (true, rest)
      | '+' :: rest => (false, rest)
      | _ => (false, cs)
    let neg := signed.1
    let body := signed.2
    let app : ℚ → JsNum := fun q => .fin (if neg then -q else q)
    if body = "Infinity".data then .inf (!neg)
    else
      match body with
      | '0' :: 'x' :: rest =>
        if neg then .nan
        else match radixVal 16 isHexDigit hexDigitVal rest with
          | some n => .fin n
          | none => .nan
      | _ =>
        -- decimal: digits [. digits] [e[±]digits], at least one digit overall
        let intPart := body.takeWhile Char.isDigit
        let rest1 := body.drop intPart.length
        let fracParts : List Char × List Char :=
          match rest1 with
          | '.' :: r => (r.takeWhile Char.isDigit, r.drop (r.takeWhile Char.isDigit).length)
          | _ => ([], rest1)
        let frac := fracParts.1
        let rest2 := fracParts.2
        if intPart.length + frac.length = 0 then .nan
        else
          let mant : ℚ :=
            (intPart.foldl (fun a c => 10 * a + digitVal c) 0 : ℕ) +
              (frac.foldl (fun a c => 10 * a + digitVal c) 0 : ℕ) / (10 : ℚ) ^ frac.length
          match rest2 with
          | [] => app mant
          | 'e' :: r => jsNumExpPart app mant r
          | 'E' :: r => jsNumExpPart app mant r
          | _ => .nan

/-- JS `Number(x)` on the writer's value types (rounding of large BigInts not
modeled). -/
def toNumber : JsValue → JsNum
  | .num x => x
  | .int i => .fin (i : ℚ)
  | .bool b => .fin (if b then 1 else 0)
  | .str s => jsNumberOfString s

/-- JS `String(x)`.  The decimal rendering of a non-integer number abstracts
from JS shortest-round-trip double notation (no claim depends on it). -/
def jsToString : JsValue → String
  | .str s => s
  | .bool b => if b then "true" else "false"
  | .int i => toString i
  | .num .nan => "NaN"
  | .num (.inf b) => if b then "Infinity" else "-Infinity"
  | .num (.fin q) => if q.den = 1 then toString q.num else toString q

/-- The signed 64-bit range admitted by `writeBigInt64LE`. -/
def int64Range (i : ℤ) : Option ℤ :=
  if -(2 ^ 63) ≤ i ∧ i < 2 ^ 63 then some i else none

/-- The `int64` arm of `writeRecord`:
`BigInt(typeof v === 'number' ? Math.round(v) : v)` followed by
`writeBigInt64LE`.  `none` models a thrown exception (non-numeric BigInt
conversion, or a value outside the signed 64-bit range), which the source
catches, writing `0n` instead. -/
def encodeInt64 : JsValue → Option ℤ
  | .num (.fin q) => int64Range (jsRound q)
  | .num _ => none
  | .int i => int64Range i
  | .bool b => int64Range (if b then 1 else 0)
  | .str s => (jsBigIntOfString s).bind int64Range

/-- Model of `writeControlRecord(entryId, entryName, dataType, metadata)`: appends one
control record and registers the name in `RECORDS`. -/
def writeControlRecord (st : WState) (entryId : ℕ) (entryName dataType metadata : String) : WState :=
  { st with
    out := st.out ++ [.control entryId entryName dataType metadata]
    records := alistSet st.records entryName (entryId, dataType) }

/-- The `switch (recordInfo.type)` payload encoding of `writeRecord`; `none`
is the `default: return` arm. -/
def encodePayload (ty : String) (entryValue : JsValue) : Option Payload :=
  if ty = "boolean" then some (.boolP (truthy entryValue))
  else if ty = "int64" then some (.int64P ((encodeInt64 entryValue).getD 0))
  else if ty = "float" then some (.floatP (toNumber entryValue))
  else if ty = "double" then some (.doubleP (toNumber entryValue))
  else if ty = "string" then some (.strP (jsToString entryValue))
  else none

/-- Model of `writeRecord(entryName, entryValue, timestampMs)`: silent no-op for an
unregistered name or an unrecognized type string; otherwise encodes the value
under the registered type and appends one data record with the timestamp
converted to microseconds. -/
def writeRecord (st : WState) (entryName : String) (entryValue : JsValue) (timestampMs : ℕ) : WState :=
  match alistGet st.records entryName with
  | none => st
  | some (id, ty) =>
    match encodePayload ty entryValue with
    | none => st
    | some p => { st with out := st.out ++ [.data id ty p (timestampMs * 1000)] }

/-- Model of `getWpilogTypeFromSignal(signal)`. -/
def getWpilogTypeFromSignal (signal : Signal) : String :=
  if signal.length = 1 then "boolean"
  else
    let isFloat := signal.dataType = .float ∨ signal.dataType = .double ∨
      (¬ jsEq signal.factor (.fin 1) ∧ ¬ jsEq signal.factor (.fin 0))
    if isFloat then
      if signal.length = 32 ∧ signal.dataType = .float then "float" else "double"
    else "int64"

/-- The `Device` interface.  `pfx` is the source's `prefix` field; `custom`
the optional `customVersionParser`. -/
structure Device where
  dbc : Dbc
  pfx : String
  firmwareFrameId : Option ℕ
  periodicFrames : List (ℕ × Message)
  custom : Option (List ℕ → String)

/-- Model of `createDeviceMap(dbc, prefix, fwName, periodicPrefix, customVersionParser)`.
The periodic-frame map is built from the messages whose names start with the
periodic name prefix, keyed by API index = bits 6–9 of the CAN id, with later
entries overwriting earlier ones (JS `new Map(entries)`). -/
def createDeviceMap (dbc : Dbc) (pfx fwName periodicPre : String)
    (custom : Option (List ℕ → String)) : Device :=
  { dbc, pfx
    firmwareFrameId := (dbc.msgGet fwName).map (·.id)
    periodicFrames :=
      ((dbc.msgValues.filter fun m => m.name.startsWith periodicPre).foldl
        (fun acc m => alistSet acc (m.id / 64 % 16) m) [])
    custom }

/-- Model of `parseFirmwareVersion(decoded, data)`: the `decoded` map parameter is
unused by both the default rule and the encoder override, so it is omitted.
Default rule: byte 0 major, byte 1 minor, bytes 2–3 big-endian build. -/
def parseFirmwareVersion (dev : Device) (data : List ℕ) : String :=
  if data.length = 0 then "0.0.0"
  else
    match dev.custom with
    | some f => f data
    | none =>
      let major := if 0 < data.length then readByte data 0 else 0
      let minor := if 1 < data.length then readByte data 1 else 0
      let build := if 3 < data.length then readByte data 2 * 256 + readByte data 3 else 0
      toString major ++ "." ++ toString minor ++ "." ++ toString build

/-- The encoder device's custom firmware-version rule: software
major/minor/fix from bytes 5/4/3. -/
def encoderVersionParser (data : List ℕ) : String :=
  if data.length < 6 then "0.0.0"
  else
    toString (readByte data 5) ++ "." ++ toString (readByte data 4) ++ "." ++
      toString (readByte data 3)

/-- The device registry built by `parseREVLOG`: type 2 → Spark motor
controller, type 12 → servo hub, type 7 → encoder.  The three catalogs are
parameters (their file contents are external resources). -/
def devicesFor (spark servohub encoder : Dbc) : ℕ → Option Device := fun t =>
  if t = 2 then some (createDeviceMap spark "REV/Spark-" "GET_FIRMWARE_VERSION" "STATUS_" none)
  else if t = 12 then some (createDeviceMap servohub "REV/ServoHub-" "GET_VERSION" "STATUS_" none)
  else if t = 7 then
    some (createDeviceMap encoder "REV/Encoder-" "GET_VERSIONING_RESP" "PERIODIC_FRAME_"
      (some encoderVersionParser))
  else none

/-- Conversion errors raised by `parseREVLOG`. -/
inductive PErr where
  | tooSmall : PErr          -- 'REVLOG file is empty or too small to be valid.'
  | notEnoughData : PErr     -- 'Not enough data.'
  | decodeError : PErr       -- an exception escaping the (uncaught) firmware decode
  | noValidRecords : PErr    -- 'No valid records found.'
deriving DecidableEq, Repr

/-- One 10-byte sub-record of a firmware (entry-id 1) block:
`[4-byte LE CAN id][6 bytes CAN data]`.  Device-type code = bits 24–28 of the
CAN id; `device.firmwareFrameId` is tested for JS truthiness (an id of 0 is
falsy).  The decode call here is not wrapped in try/catch, so a decode
exception propagates (`.error`). -/
def processFirmwareSub (devices : ℕ → Option Device) (st : WState) (chunk : List ℕ) :
    Except PErr WState :=
  let messageId := readUIntLE chunk 0 4
  let canData := (chunk.drop 4).take 6
  let deviceType := messageId / 2 ^ 24 % 32
  match devices deviceType with
  | none => .ok st
  | some device =>
    match device.firmwareFrameId with
    | none => .ok st
    | some fid =>
      if fid = 0 then .ok st
      else
        let padded := canData ++ zeros 8
        match decode device.dbc fid padded with
        | .error _ => .error .decodeError
        | .ok none => .ok st
        | .ok (some _) =>
          let name := device.pfx ++ toString (messageId % 64) ++ "/FIRMWARE"
          let st1 :=
            if alistGet st.records name = none then
              { writeControlRecord st st.nextId name "string" "" with nextId := st.nextId + 1 }
            else st
          .ok (writeRecord st1 name (.str (parseFirmwareVersion device canData)) 0)

/-- One 16-byte sub-record of a periodic (entry-id 2) block:
`[4-byte LE timestamp-ms][4-byte LE CAN id][8 bytes CAN data]`.  Decode
exceptions are caught and the frame skipped, so this is total. -/
def processPeriodicSub (devices : ℕ → Option Device) (st : WState) (chunk : List ℕ) : WState :=
  let msgTsMs := readUIntLE chunk 0 4
  let messageId := readUIntLE chunk 4 4
  let canData := (chunk.drop 8).take 8
  let deviceType := messageId / 2 ^ 24 % 32
  match devices deviceType with
  | none => st
  | some device =>
    let frameIndex := messageId / 64 % 16
    match alistGet device.periodicFrames frameIndex with
    | none => st
    | some messageSpec =>
      let alignedData :=
        if canData.length < messageSpec.dlc then
          canData ++ zeros (messageSpec.dlc - canData.length)
        else canData
      match decode device.dbc messageSpec.id alignedData with
      | .error _ => st
      | .ok none => st
      | .ok (some decoded) =>
        decoded.boundSignals.foldl
          (fun st2 entry =>
            let signalName := entry.1
            let boundSignal := entry.2
            match alistGet messageSpec.signals signalName with
            | none => st2
            | some signalSpec =>
              let folder :=
                if signalName.endsWith "FAULT" then "/FAULT/"
                else if signalName.endsWith "WARNING" then "/WARNING/"
                else "/"
              let name := device.pfx ++ toString (messageId % 64) ++ folder ++ signalName
              let st3 :=
                if alistGet st2.records name = none then
                  { writeControlRecord st2 st2.nextId name (getWpilogTypeFromSignal signalSpec)
                      (signalSpec.description.getD signalSpec.unit) with
                    nextId := st2.nextId + 1 }
                else st2
              writeRecord st3 name boundSignal.value msgTsMs)
          st

/-- The payload of a block split into fixed-size sub-records
(`for (pc = 0; pc + size <= length; pc += size)`); a trailing partial
sub-record is dropped. -/
def subChunks (payload : List ℕ) (size : ℕ) : List (List ℕ) :=
  (List.range (payload.length / size)).map fun i => (payload.drop (i * size)).take size

/-- The firmware block's sub-record loop, propagating a decode exception. -/
def foldFirmware (devices : ℕ → Option Device) : WState → List (List ℕ) → Except PErr WState
  | st, [] => .ok st
  | st, c :: cs =>
    match processFirmwareSub devices st c with
    | .error e => .error e
    | .ok st' => foldFirmware devices st' cs

/-- Model of `readVariableInt(data, cursor, length)`. -/
def readVariableInt (data : List ℕ) (cursor len : ℕ) : Except PErr (ℕ × ℕ) :=
  if cursor + len > data.length then .error .notEnoughData
  else .ok (readUIntLE data cursor len, cursor + len)

/-- The `while (cursor < binary_data.length)` scan loop of `parseREVLOG`,
with fuel for structural recursion (the cursor strictly advances, so a fuel
of `data.length` never runs out; exhausted fuel returns the current state
like end of stream). -/
def runLoop (devices : ℕ → Option Device) (data : List ℕ) :
    ℕ → WState → ℕ → Except PErr WState
  | _, st, 0 => .ok st
  | cursor, st, fuel + 1 =>
    if cursor < data.length then
      let bitfield := readByte data cursor
      let entryIdLen := bitfield % 4 + 1
      let sizeLen := bitfield / 4 % 4 + 1
      match readVariableInt data (cursor + 1) entryIdLen with
      | .error e => .error e
      | .ok (entryId, c1) =>
        match readVariableInt data c1 sizeLen with
        | .error e => .error e
        | .ok (payloadSize, c2) =>
          if c2 + payloadSize > data.length then .ok st
          else
            let payloadBytes := (data.drop c2).take payloadSize
            let c3 := c2 + payloadSize
            if entryId = 1 then
              match foldFirmware devices { st with processed := true } (subChunks payloadBytes 10) with
              | .error e => .error e
              | .ok st' => runLoop devices data c3 st' fuel
            else if entryId = 2 then
              runLoop devices data c3
                ((subChunks payloadBytes 16).foldl (processPeriodicSub devices)
                  { st with processed := true }) fuel
            else runLoop devices data c3 st fuel
    else .ok st

/-- Model of `parseREVLOG(input)` over an in-memory buffer, parameterized by the three
loaded catalogs.  The result is the list of emitted records (file reading and
writing, the fixed file header, and byte-level record framing are
abstracted). -/
def parseREVLOG (spark servohub encoder : Dbc) (binaryData : List ℕ) :
    Except PErr (List OutRec) :=
  if binaryData.length < 3 then .error .tooSmall
  else
    match runLoop (devicesFor spark servohub encoder) binaryData 0 initState binaryData.length with
    | .error e => .error e
    | .ok st => if st.processed then .ok st.out else .error .noValidRecords

/-- The framing-layer scan alone: the entry ids the source scan reads, in
order, with the same header parsing and termination conditions as `runLoop`
(`.error` when an entry header is truncated). -/
def scanIds (data : List ℕ) : ℕ → ℕ → Except PErr (List ℕ)
  | _, 0 => .ok []
  | cursor, fuel + 1 =>
    if cursor < data.length then
      let bitfield := readByte data cursor
      let entryIdLen := bitfield % 4 + 1
      let sizeLen := bitfield / 4 % 4 + 1
      match readVariableInt data (cursor + 1) entryIdLen with
      | .error e => .error e
      | .ok (entryId, c1) =>
        match readVariableInt data c1 sizeLen with
        | .error e => .error e
        | .ok (payloadSize, c2) =>
          if c2 + payloadSize > data.length then .ok []
          else
            match scanIds data (c2 + payloadSize) fuel with
            | .error e => .error e
            | .ok ids => .ok (entryId :: ids)
    else .ok []

/-! Embedding of the definition-file (DBC) loader

The four line patterns of `Dbc.load` are anchored JS regexes over a small
alphabet; they are modeled as explicit maximal-munch matchers, which agree
with the regexes because every greedy class (`\s+`, `\d+`, `\w+`, `[\d.-]+`)
is followed by a delimiter outside the class.  The lazy `(.*?)"` takes the
shortest match and the greedy `(.*)";` the longest; `.` does not match a line
terminator. -/

def isWordChar (c : Char) : Bool := c.isAlphanum ∨ c = '_'

def isNumChar (c : Char) : Bool := c.isDigit ∨ c = '.' ∨ c = '-'

def natOfDigits (t : List Char) : ℕ := t.foldl (fun a c => 10 * a + digitVal c) 0

/-- Munch one-or-more characters satisfying `p` (`\s+`, `\d+`, `\w+`, …). -/
def munch1 (p : Char → Bool) (cs : List Char) : Option (List Char × List Char) :=
  let t := cs.takeWhile p
  if t.isEmpty then none else some (t, cs.drop t.length)

/-- Munch zero-or-more characters satisfying `p` (`\s*`). -/
def munch0 (p : Char → Bool) (cs : List Char) : List Char × List Char :=
  (cs.takeWhile p, cs.drop (cs.takeWhile p).length)

def chompChar (c : Char) : List Char → Option (List Char)
  | [] => none
  | x :: xs => if x = c then some xs else none

def chompStr : List Char → List Char → Option (List Char)
  | [], cs => some cs
  | p :: ps, c :: cs => if c = p then chompStr ps cs else none
  | _ :: _, [] => none

/-- Model of `parseDigits`: value, digit count and remainder of a maximal digit run. -/
def parseDigitsQ (cs : List Char) : Option (ℕ × ℕ × List Char) :=
  let t := cs.takeWhile Char.isDigit
  if t.isEmpty then none else some (natOfDigits t, t.length, cs.drop t.length)

/-- JS `parseFloat` restricted to the character class `[\d.-]` that the
signal regex admits: an optional leading minus then the longest prefix of the
form `digits [. digits]` or `. digits`; no valid prefix gives NaN. -/
def jsParseFloat (cs : List Char) : JsNum :=
  let signed : Bool × List Char :=
    match cs with
    | '-' :: r => (true, r)
    | _ => (false, cs)
  let app : ℚ → JsNum := fun q => .fin (if signed.1 then -q else q)
  match parseDigitsQ signed.2 with
  | some (n, _, rest) =>
    match rest with
    | '.' :: r2 =>
      match parseDigitsQ r2 with
      | some (f, k, _) => app ((n : ℚ) + (f : ℚ) / 10 ^ k)
      | none => app (n : ℚ)
    | _ => app (n : ℚ)
  | none =>
    match signed.2 with
    | '.' :: r2 =>
      match parseDigitsQ r2 with
      | some (f, k, _) => app ((f : ℚ) / 10 ^ k)
      | none => .nan
    | _ => .nan

/-- Model of `reBO = /^BO_\s+(\d+)\s+(\w+):\s*(\d+)\s+(\w+)/` →
(id, name, dlc, sender). -/
def matchBO (cs0 : List Char) : Option (ℕ × String × ℕ × String) := do
  let cs ← chompStr "BO_".data cs0
  let (_, cs) ← munch1 isWSChar cs
  let (d1, cs) ← munch1 Char.isDigit cs
  let (_, cs) ← munch1 isWSChar cs
  let (w1, cs) ← munch1 isWordChar cs
  let cs ← chompChar ':' cs
  let cs := (munch0 isWSChar cs).2
  let (d2, cs) ← munch1 Char.isDigit cs
  let (_, cs) ← munch1 isWSChar cs
  let (w2, _) ← munch1 isWordChar cs
  pure (natOfDigits d1, w1.asString, natOfDigits d2, w2.asString)

/-- The lazy `(.*?)"`: content up to the first `"`, which must exist;
`.` does not match a line terminator. -/
def takeToQuote : List Char → Option (List Char × List Char)
  | [] => none
  | '"' :: rest => some ([], rest)
  | c :: rest =>
    if c = '\n' ∨ c = '\r' then none
    else (takeToQuote rest).map fun p => (c :: p.1, p.2)

/-- One `\\s*(delim)\\s*([\\d.-]+)` step of the signal regex. -/
def numAfter (delim : Char) (cs : List Char) : Option (JsNum × List Char) := do
  let cs ← chompChar delim (munch0 isWSChar cs).2
  let (t, cs) ← munch1 isNumChar (munch0 isWSChar cs).2
  pure (jsParseFloat t, cs)

def chompOneOf (a b : Char) : List Char → Option (Char × List Char)
  | c :: rest => if c = a ∨ c = b then some (c, rest) else none
  | [] => none

/-- The `^\\s*SG_\\s+(\\w+)\\s*:\\s*` head of the signal regex. -/
def sgHead (cs0 : List Char) : Option (String × List Char) := do
  let cs ← chompStr "SG_".data (munch0 isWSChar cs0).2
  let (_, cs) ← munch1 isWSChar cs
  let (nm, cs) ← munch1 isWordChar cs
  let cs ← chompChar ':' (munch0 isWSChar cs).2
  pure (nm.asString, (munch0 isWSChar cs).2)

/-- The `(\\d+)\\|(\\d+)@([01])([+-])` field of the signal regex. -/
def sgBits (cs : List Char) : Option (ℕ × ℕ × Char × Char × List Char) := do
  let (d1, cs) ← munch1 Char.isDigit cs
  let cs ← chompChar '|' cs
  let (d2, cs) ← munch1 Char.isDigit cs
  let cs ← chompChar '@' cs
  let (bo, cs) ← chompOneOf '0' '1' cs
  let (sg, cs) ← chompOneOf '+' '-' cs
  pure (natOfDigits d1, natOfDigits d2, bo, sg, cs)

/-- The `\\s*"(.*?)"` tail of the signal regex (lazy: first quote ends it). -/
def sgUnit (cs : List Char) : Option String := do
  let cs ← chompChar '"' (munch0 isWSChar cs).2
  let (unit, _) ← takeToQuote cs
  pure unit.asString

/-- Model of `reSG` → the parsed `Signal` (default `dataType` is `'int'`). -/
def matchSG (cs0 : List Char) : Option Signal := do
  let (nm, cs) ← sgHead cs0
  let (startBit, len, bo, sg, cs) ← sgBits cs
  let (fac, cs) ← numAfter '(' cs
  let (off, cs) ← numAfter ',' cs
  let cs ← chompChar ')' (munch0 isWSChar cs).2
  let (mn, cs) ← numAfter '[' cs
  let (mx, cs) ← numAfter '|' cs
  let cs ← chompChar ']' (munch0 isWSChar cs).2
  let unit ← sgUnit cs
  pure { name := nm, startBit := startBit, length := len,
         isLittleEndian := bo = '1', isSigned := sg = '-',
         factor := fac, offset := off, min := mn, max := mx,
         unit := unit, description := none, dataType := .int }

/-- Model of `reValType = /^\s*SIG_VALTYPE_\s+(\d+)\s+(\w+)\s*:\s*(\d+)\s*;/` →
(message id, signal name, the matched kind-code digits).  The code digits are
kept as characters because the source compares the matched string to `'1'`
and `'2'` literally. -/
def matchValType (cs0 : List Char) : Option (ℕ × String × List Char) := do
  let cs ← chompStr "SIG_VALTYPE_".data (munch0 isWSChar cs0).2
  let (_, cs) ← munch1 isWSChar cs
  let (d1, cs) ← munch1 Char.isDigit cs
  let (_, cs) ← munch1 isWSChar cs
  let (w, cs) ← munch1 isWordChar cs
  let cs := (munch0 isWSChar cs).2
  let cs ← chompChar ':' cs
  let cs := (munch0 isWSChar cs).2
  let (d2, cs) ← munch1 Char.isDigit cs
  let cs := (munch0 isWSChar cs).2
  let _ ← chompChar ';' cs
  pure (natOfDigits d1, w.asString, d2)

/-- The greedy `"(.*)";`: content up to the last `";` occurrence (all of it
matchable by `.`, which excludes line terminators). -/
def lastQS : List Char → Option (List Char)
  | [] => none
  | c :: rest =>
    if c = '\n' ∨ c = '\r' then none
    else
      match lastQS rest with
      | some content => some (c :: content)
      | none =>
        match c, rest with
        | '"', ';' :: _ => some []
        | _, _ => none

/-- Model of `reComment = /^\s*CM_\s+SG_\s+(\d+)\s+(\w+)\s*"(.*)";/` →
(message id, signal name, comment text). -/
def matchComment (cs0 : List Char) : Option (ℕ × String × String) := do
  let cs ← chompStr "CM_".data (munch0 isWSChar cs0).2
  let (_, cs) ← munch1 isWSChar cs
  let cs ← chompStr "SG_".data cs
  let (_, cs) ← munch1 isWSChar cs
  let (d1, cs) ← munch1 Char.isDigit cs
  let (_, cs) ← munch1 isWSChar cs
  let (w, cs) ← munch1 isWordChar cs
  let cs := (munch0 isWSChar cs).2
  let cs ← chompChar '"' cs
  let content ← lastQS cs
  pure (natOfDigits d1, w.asString, content.asString)

/-- The mutable state of one `Dbc.load` invocation: the message-object store
with both index maps, plus the `currentMessage` local (an index). -/
structure LoadState where
  msgs : List Message
  byName : List (String × ℕ)
  byId : List (ℕ × ℕ)
  current : Option ℕ
deriving DecidableEq, Repr

def emptyLoad : LoadState := ⟨[], [], [], none⟩

def listModify {α : Type} : List α → ℕ → (α → α) → List α
  | [], _, _ => []
  | a :: as, 0, f => f a :: as
  | a :: as, n + 1, f => a :: listModify as n f

/-- Process one line of the definition file: message declaration, signal
declaration (only with a current message), value-type override, signal
comment; any other line is ignored.  An unresolved value-type or comment
reference leaves the state unchanged (the record is dropped, not fatal). -/
def loadLine (st : LoadState) (line : String) : LoadState :=
  match matchBO line.data with
  | some (id, name, dlc, sender) =>
    let idx := st.msgs.length
    { msgs := st.msgs ++ [⟨id, name, dlc, sender, []⟩]
      byName := alistSet st.byName name idx
      byId := alistSet st.byId id idx
      current := some idx }
  | none =>
  match matchSG line.data, st.current with
  | some sig, some ci =>
    { st with msgs := listModify st.msgs ci fun m =>
        { m with signals := alistSet m.signals sig.name sig } }
  | _, _ =>
  match matchValType line.data with
  | some (mid, sname, code) =>
    match (alistGet st.byId mid).bind (fun i => (st.msgs.get? i).map (i, ·)) with
    | none => st
    | some (i, m) =>
      match alistGet m.signals sname with
      | none => st
      | some sig =>
        let sig' :=
          if code = ['1'] then { sig with dataType := .float }
          else if code = ['2'] then { sig with dataType := .double }
          else sig
        { st with msgs := listModify st.msgs i fun mm =>
            { mm with signals := alistSet mm.signals sname sig' } }
  | none =>
  match matchComment line.data with
  | some (mid, sname, text) =>
    match (alistGet st.byId mid).bind (fun i => (st.msgs.get? i).map (i, ·)) with
    | none => st
    | some (i, m) =>
      match alistGet m.signals sname with
      | none => st
      | some sig =>
        { st with msgs := listModify st.msgs i fun mm =>
            { mm with signals := alistSet mm.signals sname { sig with description := some text } } }
  | none => st

def loadLines (lines : List String) : LoadState := lines.foldl loadLine emptyLoad

/-- Model of `content.split(/\r?\n/)` over the character list: each separator is a
`\n` with one optional `\r` immediately before it; a lone `\r` stays inside
its line. -/
def splitRN : List Char → List (List Char)
  | [] => [[]]
  | '\r' :: '\n' :: rest => [] :: splitRN rest
  | '\n' :: rest => [] :: splitRN rest
  | c :: rest =>
    match splitRN rest with
    | [] => [[c]]
    | p :: ps => (c :: p) :: ps

/-- Model of `content.split(/\r?\n/)`. -/
def splitLines (content : String) : List String :=
  (splitRN content.data).map List.asString

/-- Model of `new Dbc().load(content)`.  The load is total: it always returns a
catalog, never an error. -/
def Dbc.load (content : String) : Dbc :=
  let st := loadLines (splitLines content)
  ⟨st.msgs, st.byName, st.byId⟩

/-! Shared example values -/

/-- An empty catalog (a `Dbc` with no messages). -/
def emptyDbc : Dbc := ⟨[], [], []⟩

/-- A little-endian unsigned 8-bit integer signal at bit 0 with factor 1,
offset 0, and declared range [0, 10]. -/
def exSigInt : Signal :=
  { name := "S", startBit := 0, length := 8, isLittleEndian := true,
    isSigned := false, factor := .fin 1, offset := .fin 0, min := .fin 0,
    max := .fin 10, unit := "", dataType := .int }

/-- A one-message catalog holding `exSigInt` under CAN id 1. -/
def exDbcInt : Dbc := ⟨[⟨1, "M", 8, "X", [("S", exSigInt)]⟩], [("M", 0)], [(1, 0)]⟩

/-! Claim C4 — output-kind derivation -/

/-- The output-kind derivation exactly as claim C4 states it: 1-bit signals
are boolean; a declared float/double kind **or a scale factor that is not
exactly 1** gives float (for a 32-bit float kind) or double; all else is
int64. -/
def claimWpilogType (s : Signal) : String :=
  if s.length = 1 then "boolean"
  else
    if s.dataType = .float ∨ s.dataType = .double ∨ ¬ jsEq s.factor (.fin 1) then
      if s.length = 32 ∧ s.dataType = .float then "float" else "double"
    else "int64"

/-- The derivation with the correction the code forces: the scale-factor test
is "not exactly 1 **and not exactly 0**" (`factor !== 1 && factor !== 0`). -/
def claimWpilogTypeAmended (s : Signal) : String :=
  if s.length = 1 then "boolean"
  else
    if s.dataType = .float ∨ s.dataType = .double ∨
        (¬ jsEq s.factor (.fin 1) ∧ ¬ jsEq s.factor (.fin 0)) then
      if s.length = 32 ∧ s.dataType = .float then "float" else "double"
    else "int64"

/-- A 2-bit integer signal with scale factor 0. -/
def exSigFactorZero : Signal := { exSigInt with length := 2, factor := .fin 0, max := .fin 0 }

/-- Counterexample to C4: an integer signal with scale factor 0 (which is not
exactly 1) maps to int64 in the code, while the claim's derivation demands
double. -/
theorem c4_counterexample :
    getWpilogTypeFromSignal exSigFactorZero = "int64" ∧
    claimWpilogType exSigFactorZero = "double" ∧
    ("int64" : String) ≠ "double" := by
  refine ⟨rfl, rfl, by decide⟩

/-- Claim C4 (amended): the output stream kind of a first-seen signal is
boolean for 1-bit signals; float or double for signals of declared
float/double kind or with a scale factor that is neither exactly 1 nor
exactly 0 (float when the kind is 32-bit float, double otherwise); and int64
in all remaining cases. -/
theorem c4_output_kind_derivation (s : Signal) :
    getWpilogTypeFromSignal s = claimWpilogTypeAmended s := rfl

/-! Claim C9 — int64 encoding exceptions are swallowed -/

/-- Claim C9: writing a value to a registered int64 stream whose encoding as
a signed 64-bit integer throws (a non-numeric value, or one outside the
64-bit range) still emits a data record for that stream with payload value 0,
and the writer returns normally (it is a total function; the run continues). -/
theorem c9_int64_exception_writes_zero (st : WState) (name : String) (v : JsValue)
    (ts id : ℕ)
    (hreg : alistGet st.records name = some (id, "int64"))
    (henc : encodeInt64 v = none) :
    writeRecord st name v ts =
      { st with out := st.out ++ [.data id "int64" (.int64P 0) (ts * 1000)] } := by
  unfold writeRecord
  rw [hreg]
  simp [encodePayload, henc]

/-- Concrete run of `c9_int64_exception_writes_zero`: the non-numeric string
value "xyz" written to an int64 stream produces a zero payload. -/
theorem c9_witness :
    writeRecord ⟨[("a", 1, "int64")], 2, [], true⟩ "a" (.str "xyz") 7 =
      { records := [("a", 1, "int64")], nextId := 2,
        out := [.data 1 "int64" (.int64P 0) 7000], processed := true } :=
  c9_int64_exception_writes_zero ⟨[("a", 1, "int64")], 2, [], true⟩ "a" (.str "xyz") 7 1
    (by decide) (by decide)

/-- Decidable equality of `Except` results, for concrete evaluation. -/
instance exceptDecEq {ε α : Type} [DecidableEq ε] [DecidableEq α] :
    DecidableEq (Except ε α) := fun a b =>
  match a, b with
  | .error e, .error f =>
    if h : e = f then .isTrue (congrArg Except.error h)
    else .isFalse fun hh => h (Except.error.inj hh)
  | .ok x, .ok y =>
    if h : x = y then .isTrue (congrArg Except.ok h)
    else .isFalse fun hh => h (Except.ok.inj hh)
  | .error _, .ok _ => .isFalse fun hh => Except.noConfusion hh
  | .ok _, .error _ => .isFalse fun hh => Except.noConfusion hh

/-! Claim C2 — range clamping -/

/-- Clamping a number into `[mn, mx]` with `mn ≤ mx` yields a finite result
only inside the range. -/
theorem clampNum_fin {x : JsNum} {mn mx q : ℚ} (hle : mn ≤ mx)
    (h : clampNum x (.fin mn) (.fin mx) = .fin q) : mn ≤ q ∧ q ≤ mx := by
  cases x with
  | nan => simp [clampNum, jsLt, jsGt] at h
  | inf b =>
    cases b with
    | false =>
      have hnlt : ¬ mx < mn := not_lt.2 hle
      simp [clampNum, jsLt, jsGt, hnlt] at h
      constructor <;> linarith [h]
    | true =>
      simp [clampNum, jsLt, jsGt] at h
      constructor <;> linarith [h]
  | fin r =>
    by_cases h1 : r < mn
    · have hnlt : ¬ mx < mn := not_lt.2 hle
      simp [clampNum, jsLt, jsGt, h1, hnlt] at h
      constructor <;> linarith [h]
    · by_cases h2 : mx < r
      · simp [clampNum, jsLt, jsGt, h1, h2] at h
        constructor <;> linarith [h]
      · simp [clampNum, jsLt, jsGt, h1, h2] at h
        have h1' := not_lt.1 h1
        have h2' := not_lt.1 h2
        constructor <;> linarith [h]

/-- If the clamp step yields a finite number and either bound is non-zero
with `min ≤ max`, the result lies in `[min, max]`. -/
theorem applyClamp_num_fin {s : Signal} {v : JsValue} {q mn mx : ℚ}
    (hmn : s.min = .fin mn) (hmx : s.max = .fin mx)
    (hnz : mn ≠ 0 ∨ mx ≠ 0) (hle : mn ≤ mx)
    (h : applyClamp s v = .num (.fin q)) : mn ≤ q ∧ q ≤ mx := by
  cases v with
  | num x =>
    have hcond : ¬ jsEq s.min (.fin 0) ∨ ¬ jsEq s.max (.fin 0) := by
      rw [hmn, hmx]
      rcases hnz with h0 | h0
      · exact Or.inl (by simp [jsEq, h0])
      · exact Or.inr (by simp [jsEq, h0])
    simp only [applyClamp] at h
    rw [if_pos hcond, hmn, hmx] at h
    exact clampNum_fin hle (JsValue.num.inj h)
  | int i => simp [applyClamp] at h
  | str t => simp [applyClamp] at h
  | bool b => simp [applyClamp] at h

/-- Every value produced by the per-signal decode body has passed through the
clamp step. -/
theorem decodeSignal_ok_value (data : List ℕ) (buf64 : ℕ) {s : Signal} {bs : BoundSignal}
    (h : decodeSignal data buf64 s = .ok bs) : ∃ v, bs.value = applyClamp s v := by
  unfold decodeSignal at h
  split at h
  · dsimp only at h
    split at h
    · exact absurd h (by simp)
    · rename_i phys heq
      obtain rfl := Except.ok.inj h
      exact ⟨.num phys, rfl⟩
  · split at h
    · dsimp only at h
      obtain rfl := Except.ok.inj h
      exact ⟨_, rfl⟩
    · dsimp only at h
      obtain rfl := Except.ok.inj h
      exact ⟨_, rfl⟩

/-- Counterexample to C2: for the little-endian integer signal `exSigInt`
with factor 1, offset 0, and non-zero declared max 10, the input bit pattern
200 decodes to the exact BigInt physical value 200, which does not lie within
[0, 10] — the exact-integer path bypasses the clamp. -/
theorem c2_counterexample :
    decode exDbcInt 1 [200, 0, 0, 0, 0, 0, 0, 0] =
      .ok (some ⟨1, "M", [("S", ⟨exSigInt, .int 200, .int 200⟩)]⟩) ∧
    exSigInt.min = .fin 0 ∧ exSigInt.max = .fin 10 ∧ ¬ ((200 : ℚ) ≤ 10) :=
  ⟨by decide, rfl, rfl, by norm_num⟩

/-- Claim C2 (amended): for every signal with non-zero declared min or max
(and min ≤ max), any decoded physical value that is a finite floating-point
number lies within [min, max] after scaling.  (Values produced as exact
BigInts — the little-endian integer path with factor 1 and offset 0 — bypass
the clamp, as the counterexample shows; NaN stays NaN through the clamp.) -/
theorem c2_clamped_within_range (data : List ℕ) (buf64 : ℕ) (s : Signal)
    (bs : BoundSignal) (q mn mx : ℚ)
    (hdec : decodeSignal data buf64 s = .ok bs)
    (hval : bs.value = .num (.fin q))
    (hmn : s.min = .fin mn) (hmx : s.max = .fin mx)
    (hnz : mn ≠ 0 ∨ mx ≠ 0) (hle : mn ≤ mx) :
    mn ≤ q ∧ q ≤ mx := by
  obtain ⟨v, hv⟩ := decodeSignal_ok_value data buf64 hdec
  exact applyClamp_num_fin hmn hmx hnz hle (hv ▸ hval)

/-- A big-endian integer signal with declared range [2, 5] (its placeholder
physical value 0 is clamped up to 2). -/
def exSigBE : Signal := { exSigInt with isLittleEndian := false, min := .fin 2, max := .fin 5 }

/-- Concrete run of `c2_clamped_within_range`: the big-endian placeholder 0
is clamped into the declared range [2, 5]. -/
theorem c2_witness :
    decodeSignal [] 0 exSigBE = .ok ⟨exSigBE, .num (.fin 2), .num (.fin 0)⟩ ∧
    (2 : ℚ) ≤ 2 ∧ (2 : ℚ) ≤ 5 :=
  ⟨by decide,
    c2_clamped_within_range [] 0 exSigBE ⟨exSigBE, .num (.fin 2), .num (.fin 0)⟩ 2 2 5
      (by decide) rfl rfl rfl (Or.inl (by norm_num)) (by norm_num)⟩

/-! Claim C3 — exact little-endian integer extraction -/

/-- The raw bit-field of claim C3: `len` bits starting at `start` of the
little-endian payload. -/
def specRawBitField (payload : List ℕ) (start len : ℕ) : ℕ :=
  bytesToNatLE payload / 2 ^ start % 2 ^ len

/-- Two's-complement sign extension on width `len`. -/
def specSignExtend (signed : Bool) (len n : ℕ) : ℤ :=
  if signed ∧ n / 2 ^ (len - 1) % 2 = 1 then (n : ℤ) - 2 ^ len else (n : ℤ)

theorem bytesToNatLE_append (l1 l2 : List ℕ) :
    bytesToNatLE (l1 ++ l2) = bytesToNatLE l1 + 2 ^ (8 * l1.length) * bytesToNatLE l2 := by
  induction l1 with
  | nil => simp [bytesToNatLE]
  | cons b rest ih =>
    have lhs : bytesToNatLE ((b :: rest) ++ l2) = b % 256 + 256 * bytesToNatLE (rest ++ l2) := rfl
    have rhs1 : bytesToNatLE (b :: rest) = b % 256 + 256 * bytesToNatLE rest := rfl
    rw [lhs, rhs1, ih, List.length_cons]
    have h2 : (2 : ℕ) ^ (8 * (rest.length + 1)) = 256 * 2 ^ (8 * rest.length) := by
      rw [Nat.mul_add, pow_add]; ring
    rw [h2]; ring

theorem bytesToNatLE_lt (bs : List ℕ) : bytesToNatLE bs < 2 ^ (8 * bs.length) := by
  induction bs with
  | nil => simp [bytesToNatLE]
  | cons b rest ih =>
    simp only [bytesToNatLE, List.length_cons]
    have h2 : (2 : ℕ) ^ (8 * (rest.length + 1)) = 256 * 2 ^ (8 * rest.length) := by
      rw [Nat.mul_add, pow_add]; ring
    have hb : b % 256 < 256 := Nat.mod_lt _ (by norm_num)
    rw [h2]
    omega

theorem bytesToNatLE_take (k : ℕ) (bs : List ℕ) :
    bytesToNatLE (bs.take k) = bytesToNatLE bs % 2 ^ (8 * k) := by
  by_cases hk : k ≤ bs.length
  · have hsplit := bytesToNatLE_append (bs.take k) (bs.drop k)
    rw [List.take_append_drop] at hsplit
    have hlen : (bs.take k).length = k := List.length_take_of_le hk
    rw [hlen] at hsplit
    have hlt : bytesToNatLE (bs.take k) < 2 ^ (8 * k) := by
      have := bytesToNatLE_lt (bs.take k)
      rwa [hlen] at this
    rw [hsplit, Nat.add_mul_mod_self_left, Nat.mod_eq_of_lt hlt]
  · rw [List.take_of_length_le (le_of_not_le hk)]
    have hlt : bytesToNatLE bs < 2 ^ (8 * k) :=
      lt_of_lt_of_le (bytesToNatLE_lt bs)
        (Nat.pow_le_pow_right (by norm_num) (by omega))
    rw [Nat.mod_eq_of_lt hlt]

theorem extract_mod64 {x s l : ℕ} (h : s + l ≤ 64) :
    x % 2 ^ 64 / 2 ^ s % 2 ^ l = x / 2 ^ s % 2 ^ l := by
  have h64 : (2 : ℕ) ^ 64 = 2 ^ s * 2 ^ (64 - s) := by
    rw [← pow_add]; congr 1; omega
  rw [h64, Nat.mod_mul_right_div_self,
    Nat.mod_mod_of_dvd _ (pow_dvd_pow 2 (show l ≤ 64 - s by omega))]

/-- A little-endian integer signal whose bit-field (bits 64–71) lies past the
first 8 bytes, in a one-message catalog. -/
def exSigHigh : Signal := { exSigInt with startBit := 64, max := .fin 0 }

def exDbcHigh : Dbc := ⟨[⟨1, "M", 1, "X", [("S", exSigHigh)]⟩], [("M", 0)], [(1, 0)]⟩

/-- A 9-byte frame (already at least max(dlc, 8) long, so the padded payload
is the frame itself) whose ninth byte is 5. -/
def exDataHigh : List ℕ := [0, 0, 0, 0, 0, 0, 0, 0, 5]

/-- Counterexample to C3: for the little-endian integer signal at start bit
64 with factor 1 and offset 0, the code decodes the physical value 0 (the
extraction reads only `readBigUInt64LE(0)`, the first 8 bytes), while the raw
bit-field of the padded payload at bit 64 is 5. -/
theorem c3_counterexample :
    decode exDbcHigh 1 exDataHigh =
      .ok (some ⟨1, "M", [("S", ⟨exSigHigh, .int 0, .int 0⟩)]⟩) ∧
    specSignExtend exSigHigh.isSigned exSigHigh.length
      (specRawBitField exDataHigh exSigHigh.startBit exSigHigh.length) = 5 ∧
    (0 : ℤ) ≠ 5 :=
  ⟨by decide, by decide, by decide⟩

/-- Claim C3 (amended): for every little-endian integer signal with factor 1,
offset 0, and a bit-field within the first 64 bits of the padded payload
(startBit + length ≤ 64 — the code reads the payload through one 64-bit
integer), the decoded physical value is exactly the raw bit-field extracted
at the start bit, sign-extended in two's complement on the field width when
the signal is signed, as an exact BigInt with no floating-point arithmetic
involved.  `decode` calls `decodeSignal` with exactly the padded payload and
its first-8-bytes little-endian integer. -/
theorem c3_exact_integer_decode (data : List ℕ) (s : Signal)
    (hdt : s.dataType = .int) (hle : s.isLittleEndian = true)
    (hf : s.factor = .fin 1) (ho : s.offset = .fin 0)
    (hfit : s.startBit + s.length ≤ 64) :
    decodeSignal data (readUIntLE data 0 8) s =
      .ok ⟨s, .int (specSignExtend s.isSigned s.length
              (specRawBitField data s.startBit s.length)),
            .int (specSignExtend s.isSigned s.length
              (specRawBitField data s.startBit s.length))⟩ := by
  have hraw : readUIntLE data 0 8 / 2 ^ s.startBit % 2 ^ s.length =
      specRawBitField data s.startBit s.length := by
    unfold readUIntLE specRawBitField
    rw [List.drop_zero, bytesToNatLE_take]
    exact extract_mod64 hfit
  have hnotfd : ¬ (s.dataType = .float ∨ s.dataType = .double) := by
    rw [hdt]; simp
  have hfe : jsEq (JsNum.fin 1) (.fin 1) ∧ jsEq (JsNum.fin 0) (.fin 0) := by
    constructor <;> simp [jsEq]
  unfold decodeSignal
  rw [if_neg hnotfd, if_pos hle]
  dsimp only
  rw [hraw, hf, ho, if_pos hfe]
  rfl

/-- Concrete run of `c3_exact_integer_decode`: byte value 200 in an unsigned
8-bit field decodes to the exact BigInt 200. -/
theorem c3_witness :
    decodeSignal [200, 0, 0, 0, 0, 0, 0, 0] (readUIntLE [200, 0, 0, 0, 0, 0, 0, 0] 0 8)
        exSigInt = .ok ⟨exSigInt, .int 200, .int 200⟩ :=
  (c3_exact_integer_decode [200, 0, 0, 0, 0, 0, 0, 0] exSigInt rfl rfl rfl rfl
    (by decide)).trans (by decide)

/-! Claims C6 and C10 — framing truncation -/

/-- Claim C6 (amended): when an entry's header is fully readable but its
declared payload length would exceed the remaining input bytes, the scan ends
silently with the current state, exactly as at end of stream — no error is
raised.  (A capture truncated inside an entry's *header* instead raises
'Not enough data.', as the counterexample and C10 show.) -/
theorem c6_declared_length_overrun_is_silent (devices : ℕ → Option Device)
    (data : List ℕ) (cursor : ℕ) (st : WState) (fuel : ℕ)
    (hc : cursor < data.length)
    (h1 : cursor + 1 + (readByte data cursor % 4 + 1) ≤ data.length)
    (h2 : cursor + 1 + (readByte data cursor % 4 + 1) + (readByte data cursor / 4 % 4 + 1)
      ≤ data.length)
    (h3 : data.length <
      cursor + 1 + (readByte data cursor % 4 + 1) + (readByte data cursor / 4 % 4 + 1) +
        readUIntLE data (cursor + 1 + (readByte data cursor % 4 + 1))
          (readByte data cursor / 4 % 4 + 1)) :
    runLoop devices data cursor st (fuel + 1) = .ok st := by
  unfold runLoop readVariableInt
  rw [if_pos hc]
  dsimp only
  rw [if_neg (by omega :
    ¬ cursor + 1 + (readByte data cursor % 4 + 1) > data.length)]
  dsimp only
  rw [if_neg (by omega :
    ¬ cursor + 1 + (readByte data cursor % 4 + 1) + (readByte data cursor / 4 % 4 + 1)
      > data.length)]
  dsimp only
  rw [if_pos (by omega :
    cursor + 1 + (readByte data cursor % 4 + 1) + (readByte data cursor / 4 % 4 + 1) +
      readUIntLE data (cursor + 1 + (readByte data cursor % 4 + 1))
        (readByte data cursor / 4 % 4 + 1) > data.length)]

/-- Counterexample to C6's "never throws at the framing layer": the 3-byte
truncated capture [12, 0, 0] declares a 4-byte payload-length field that
extends past the end of the input, and the conversion throws 'Not enough
data.' instead of ending silently. -/
theorem c6_counterexample :
    parseREVLOG emptyDbc emptyDbc emptyDbc [12, 0, 0] = .error .notEnoughData := by
  decide

/-- Concrete run of `c6_declared_length_overrun_is_silent`: header [0, 9, 200]
declares entry id 9 with a 200-byte payload on an empty remainder; the scan
returns the state unchanged. -/
theorem c6_witness :
    runLoop (devicesFor emptyDbc emptyDbc emptyDbc) [0, 9, 200] 0 initState 3 = .ok initState :=
  c6_declared_length_overrun_is_silent (devicesFor emptyDbc emptyDbc emptyDbc)
    [0, 9, 200] 0 initState 2 (by decide) (by decide) (by decide) (by decide)

/-- Claim C10: when an entry's header fields themselves are truncated — the
control byte's declared entry-id width or payload-length width extends past
the end of the input — the scan raises 'Not enough data.' instead of treating
the truncation as end of stream; at the first entry this is the result of
`parseREVLOG` itself. -/
theorem c10_header_truncation_raises :
    (∀ (devices : ℕ → Option Device) (data : List ℕ) (cursor : ℕ) (st : WState) (fuel : ℕ),
      cursor < data.length →
      data.length <
        cursor + 1 + (readByte data cursor % 4 + 1) + (readByte data cursor / 4 % 4 + 1) →
      runLoop devices data cursor st (fuel + 1) = .error .notEnoughData) ∧
    (∀ (spark servohub encoder : Dbc) (data : List ℕ),
      3 ≤ data.length →
      data.length < 1 + (readByte data 0 % 4 + 1) + (readByte data 0 / 4 % 4 + 1) →
      parseREVLOG spark servohub encoder data = .error .notEnoughData) := by
  have step : ∀ (devices : ℕ → Option Device) (data : List ℕ) (cursor : ℕ) (st : WState)
      (fuel : ℕ), cursor < data.length →
      data.length <
        cursor + 1 + (readByte data cursor % 4 + 1) + (readByte data cursor / 4 % 4 + 1) →
      runLoop devices data cursor st (fuel + 1) = .error .notEnoughData := by
    intro devices data cursor st fuel hc htr
    unfold runLoop readVariableInt
    rw [if_pos hc]
    dsimp only
    by_cases hA : cursor + 1 + (readByte data cursor % 4 + 1) > data.length
    · rw [if_pos hA]
    · rw [if_neg hA]
      dsimp only
      rw [if_pos (by omega :
        cursor + 1 + (readByte data cursor % 4 + 1) + (readByte data cursor / 4 % 4 + 1)
          > data.length)]
  refine ⟨step, ?_⟩
  intro spark servohub encoder data h3 htr
  unfold parseREVLOG
  rw [if_neg (not_lt.2 h3)]
  have h1 := step (devicesFor spark servohub encoder) data 0 initState (data.length - 1)
    (by omega) (by omega)
  rw [show data.length = data.length - 1 + 1 by omega, h1]

/-- Concrete run of `c10_header_truncation_raises`: the 3-byte input
[2, 0, 0] declares a 3-byte entry-id field extending past the end, and both
the scan step and `parseREVLOG` raise 'Not enough data.'. -/
theorem c10_witness :
    runLoop (devicesFor emptyDbc emptyDbc emptyDbc) [2, 0, 0] 0 initState 3 =
      .error .notEnoughData ∧
    parseREVLOG emptyDbc emptyDbc emptyDbc [2, 0, 0] = .error .notEnoughData :=
  ⟨c10_header_truncation_raises.1 (devicesFor emptyDbc emptyDbc emptyDbc) [2, 0, 0] 0
      initState 2 (by decide) (by decide),
    c10_header_truncation_raises.2 emptyDbc emptyDbc emptyDbc [2, 0, 0]
      (by decide) (by decide)⟩

/-! Claim C5 — too-small inputs and inputs with no recognized entries -/

/-- A scan that completes without reading any entry of id 1 or 2 leaves the
transcoding state untouched. -/
theorem runLoop_skip (devices : ℕ → Option Device) (data : List ℕ) :
    ∀ (fuel cursor : ℕ) (st : WState) (ids : List ℕ),
      scanIds data cursor fuel = .ok ids →
      (∀ i ∈ ids, i ≠ 1 ∧ i ≠ 2) →
      runLoop devices data cursor st fuel = .ok st := by
  intro fuel
  induction fuel with
  | zero => intro cursor st ids _ _; rfl
  | succ f ih =>
    intro cursor st ids hscan hni
    unfold scanIds at hscan
    unfold runLoop
    by_cases hc : cursor < data.length
    · rw [if_pos hc] at hscan ⊢
      (try dsimp only at hscan); (try dsimp only)
      cases hr1 : readVariableInt data (cursor + 1) (readByte data cursor % 4 + 1) with
      | error e => rw [hr1] at hscan; simp at hscan
      | ok pair =>
        obtain ⟨entryId, c1⟩ := pair
        rw [hr1] at hscan
        (try dsimp only at hscan); (try dsimp only)
        cases hr2 : readVariableInt data c1 (readByte data cursor / 4 % 4 + 1) with
        | error e => rw [hr2] at hscan; simp at hscan
        | ok pair2 =>
          obtain ⟨payloadSize, c2⟩ := pair2
          rw [hr2] at hscan
          (try dsimp only at hscan); (try dsimp only)
          by_cases hb : c2 + payloadSize > data.length
          · rw [if_pos hb]
          · rw [if_neg hb] at hscan ⊢
            (try dsimp only at hscan); (try dsimp only)
            cases hrec : scanIds data (c2 + payloadSize) f with
            | error e => rw [hrec] at hscan; simp at hscan
            | ok ids' =>
              rw [hrec] at hscan
              (try dsimp only at hscan)
              obtain rfl := Except.ok.inj hscan
              have hid := hni entryId (List.mem_cons_self _ _)
              have hrest : ∀ i ∈ ids', i ≠ 1 ∧ i ≠ 2 := fun i hi =>
                hni i (List.mem_cons_of_mem _ hi)
              rw [if_neg hid.1, if_neg hid.2]
              exact ih (c2 + payloadSize) st ids' hrec hrest
    · rw [if_neg hc]

/-- Claim C5 (amended): an input shorter than 3 bytes fails with the
input-validation error; an input of at least 3 bytes whose scan runs to
completion (no truncated entry header) without encountering any entry of id 1
or 2 fails with the 'no valid records' error.  (When an entry header itself
is truncated the conversion instead fails with 'Not enough data.', as the
counterexample shows.) -/
theorem c5_error_classification :
    (∀ (spark servohub encoder : Dbc) (data : List ℕ), data.length < 3 →
      parseREVLOG spark servohub encoder data = .error .tooSmall) ∧
    (∀ (spark servohub encoder : Dbc) (data ids : List ℕ),
      3 ≤ data.length →
      scanIds data 0 data.length = .ok ids →
      (∀ i ∈ ids, i ≠ 1 ∧ i ≠ 2) →
      parseREVLOG spark servohub encoder data = .error .noValidRecords) := by
  constructor
  · intro s v e data h
    unfold parseREVLOG
    rw [if_pos h]
  · intro s v e data ids h3 hscan hni
    unfold parseREVLOG
    rw [if_neg (not_lt.2 h3),
      runLoop_skip (devicesFor s v e) data data.length 0 initState ids hscan hni]
    rfl

/-- Counterexample to C5 as stated: the 3-byte input [3, 0, 0] has at least 3
bytes and its scan encounters no entry at all (a fortiori none of id 1 or 2),
yet the conversion fails with 'Not enough data.' — not the 'no valid records'
error — because the declared 4-byte entry-id field extends past the end. -/
theorem c5_counterexample :
    3 ≤ ([3, 0, 0] : List ℕ).length ∧
    scanIds [3, 0, 0] 0 3 = .error .notEnoughData ∧
    parseREVLOG emptyDbc emptyDbc emptyDbc [3, 0, 0] = .error .notEnoughData ∧
    PErr.notEnoughData ≠ PErr.noValidRecords :=
  ⟨by decide, by decide, by decide, by decide⟩

/-- Concrete runs of `c5_error_classification`: a 1-byte input fails as too
small, and [0, 9, 0] (one entry of id 9, empty payload) fails with 'no valid
records'. -/
theorem c5_witness :
    parseREVLOG emptyDbc emptyDbc emptyDbc [0] = .error .tooSmall ∧
    parseREVLOG emptyDbc emptyDbc emptyDbc [0, 9, 0] = .error .noValidRecords :=
  ⟨c5_error_classification.1 emptyDbc emptyDbc emptyDbc [0] (by decide),
    c5_error_classification.2 emptyDbc emptyDbc emptyDbc [0, 9, 0] [9]
      (by decide) (by decide) (by decide)⟩

/-! Claim C7 — unresolved value-type and comment references -/

theorem munch0_snd (p : Char → Bool) (cs : List Char) :
    (munch0 p cs).2 = cs.dropWhile p := by
  induction cs with
  | nil => rfl
  | cons c rest ih =>
    by_cases hp : p c
    · simp [munch0, List.takeWhile, List.dropWhile, hp] at ih ⊢
      exact ih
    · simp [munch0, List.takeWhile, List.dropWhile, hp]

theorem chompStr_cons {p : Char} {ps cs : List Char} {r : List Char}
    (h : chompStr (p :: ps) cs = some r) :
    ∃ rest, cs = p :: rest ∧ chompStr ps rest = some r := by
  cases cs with
  | nil => simp [chompStr] at h
  | cons c cs' =>
    by_cases hc : c = p
    · subst hc
      exact ⟨cs', rfl, by simpa [chompStr] using h⟩
    · simp [chompStr, hc] at h

/-- A line matched by the value-type pattern starts (after whitespace) with
`SI`. -/
theorem matchValType_head {cs0 : List Char} {x : ℕ × String × List Char}
    (h : matchValType cs0 = some x) :
    ∃ rest, cs0.dropWhile isWSChar = 'S' :: 'I' :: rest := by
  unfold matchValType at h
  rw [munch0_snd] at h
  cases hcs : chompStr "SIG_VALTYPE_".data (cs0.dropWhile isWSChar) with
  | none => rw [hcs] at h; simp at h
  | some cs1 =>
    have hd : "SIG_VALTYPE_".data =
      'S' :: 'I' :: ['G', '_', 'V', 'A', 'L', 'T', 'Y', 'P', 'E', '_'] := rfl
    rw [hd] at hcs
    obtain ⟨r1, hr1, hc1⟩ := chompStr_cons hcs
    obtain ⟨r2, hr2, -⟩ := chompStr_cons hc1
    exact ⟨r2, by rw [hr1, hr2]⟩

/-- A line matched by the comment pattern starts (after whitespace) with
`CM`. -/
theorem matchComment_head {cs0 : List Char} {x : ℕ × String × String}
    (h : matchComment cs0 = some x) :
    ∃ rest, cs0.dropWhile isWSChar = 'C' :: 'M' :: rest := by
  unfold matchComment at h
  rw [munch0_snd] at h
  cases hcs : chompStr "CM_".data (cs0.dropWhile isWSChar) with
  | none => rw [hcs] at h; simp at h
  | some cs1 =>
    have hd : "CM_".data = 'C' :: 'M' :: ['_'] := rfl
    rw [hd] at hcs
    obtain ⟨r1, hr1, hc1⟩ := chompStr_cons hcs
    obtain ⟨r2, hr2, -⟩ := chompStr_cons hc1
    exact ⟨r2, by rw [hr1, hr2]⟩

/-- A line whose whitespace-stripped head is not `B` cannot match the
(unanchored-whitespace-free) message pattern. -/
theorem matchBO_none {cs0 : List Char} {c0 : Char} {rest : List Char}
    (hdw : cs0.dropWhile isWSChar = c0 :: rest) (hne : c0 ≠ 'B') :
    matchBO cs0 = none := by
  cases cs0 with
  | nil => simp [List.dropWhile] at hdw
  | cons c cs' =>
    have hnb : c ≠ 'B' := by
      by_cases hw : isWSChar c
      · intro hc; subst hc; simp [isWSChar] at hw
      · rw [List.dropWhile_cons, if_neg (by simp [hw])] at hdw
        intro hc
        exact hne (by rw [← (List.cons.inj hdw).1, hc])
    unfold matchBO
    have : chompStr "BO_".data (c :: cs') = none := by
      have hd : "BO_".data = 'B' :: ['O', '_'] := rfl
      rw [hd]
      simp [chompStr, hnb]
    rw [this]
    rfl

/-- A line whose whitespace-stripped head two characters are not `SG` cannot
match the signal pattern. -/
theorem matchSG_none {cs0 : List Char} {c0 c1 : Char} {rest : List Char}
    (hdw : cs0.dropWhile isWSChar = c0 :: c1 :: rest) (hne : ¬ (c0 = 'S' ∧ c1 = 'G')) :
    matchSG cs0 = none := by
  unfold matchSG sgHead
  rw [munch0_snd, hdw]
  have hd : "SG_".data = 'S' :: 'G' :: ['_'] := rfl
  rw [hd]
  by_cases h0 : c0 = 'S'
  · have h1 : c1 ≠ 'G' := fun hg => hne ⟨h0, hg⟩
    simp [chompStr, h0, h1]
  · simp [chompStr, h0]

/-- A line whose whitespace-stripped head is not `S` cannot match the
value-type pattern. -/
theorem matchValType_none {cs0 : List Char} {c0 : Char} {rest : List Char}
    (hdw : cs0.dropWhile isWSChar = c0 :: rest) (hne : c0 ≠ 'S') :
    matchValType cs0 = none := by
  unfold matchValType
  rw [munch0_snd, hdw]
  have hd : "SIG_VALTYPE_".data =
    'S' :: ['I', 'G', '_', 'V', 'A', 'L', 'T', 'Y', 'P', 'E', '_'] := rfl
  rw [hd]
  simp [chompStr, hne]

/-- The code's lookup for value-type and comment lines:
`messagesById.get(id)?.signals.get(name)`. -/
def sigLookup (st : LoadState) (mid : ℕ) (sname : String) : Option Signal :=
  ((alistGet st.byId mid).bind fun i => st.msgs.get? i).bind fun m =>
    alistGet m.signals sname

/-- A value-type override or signal-comment line whose referenced message id
or signal name resolves to nothing in the load state. -/
def refUnresolved (st : LoadState) (l : String) : Prop :=
  (∃ mid sname code, matchValType l.data = some (mid, sname, code) ∧
    sigLookup st mid sname = none) ∨
  (∃ mid sname text, matchComment l.data = some (mid, sname, text) ∧
    sigLookup st mid sname = none)

/-- Processing a value-type or comment line with an unresolved reference
leaves the load state unchanged. -/
theorem loadLine_unresolved (st : LoadState) (l : String)
    (h : refUnresolved st l) : loadLine st l = st := by
  rcases h with ⟨mid, sname, code, hvt, hnone⟩ | ⟨mid, sname, text, hcm, hnone⟩
  · obtain ⟨rest, hdw⟩ := matchValType_head hvt
    have hbo := matchBO_none hdw (by decide)
    have hsg := matchSG_none hdw (by rintro ⟨-, h1⟩; exact absurd h1 (by decide))
    unfold loadLine
    cases ha : alistGet st.byId mid with
    | none => simp [hbo, hsg, hvt, ha]
    | some i =>
      cases hm : st.msgs.get? i with
      | none =>
        have hm2 : st.msgs[i]? = none := by simpa [List.get?_eq_getElem?] using hm
        simp [hbo, hsg, hvt, ha, hm2]
      | some m =>
        have hsig : alistGet m.signals sname = none := by
          unfold sigLookup at hnone
          rw [ha] at hnone
          simp only [Option.some_bind] at hnone
          rw [hm] at hnone
          simpa using hnone
        have hm2 : st.msgs[i]? = some m := by simpa [List.get?_eq_getElem?] using hm
        simp [hbo, hsg, hvt, ha, hm2, hsig]
  · obtain ⟨rest, hdw⟩ := matchComment_head hcm
    have hbo := matchBO_none hdw (by decide)
    have hsg := matchSG_none hdw (by rintro ⟨h0, -⟩; exact absurd h0 (by decide))
    have hvt := matchValType_none hdw (by decide)
    unfold loadLine
    cases ha : alistGet st.byId mid with
    | none => simp [hbo, hsg, hvt, hcm, ha]
    | some i =>
      cases hm : st.msgs.get? i with
      | none =>
        have hm2 : st.msgs[i]? = none := by simpa [List.get?_eq_getElem?] using hm
        simp [hbo, hsg, hvt, hcm, ha, hm2]
      | some m =>
        have hsig : alistGet m.signals sname = none := by
          unfold sigLookup at hnone
          rw [ha] at hnone
          simp only [Option.some_bind] at hnone
          rw [hm] at hnone
          simpa using hnone
        have hm2 : st.msgs[i]? = some m := by simpa [List.get?_eq_getElem?] using hm
        simp [hbo, hsg, hvt, hcm, ha, hm2, hsig]

/-- Claim C7 (amended): a value-type override or signal-comment line that
references a message id or signal name not yet declared is silently dropped —
the resulting catalog state is identical to the one without that line — and
the load never fails (`Dbc.load` is total by construction: it returns a
catalog for every input). -/
theorem c7_unresolved_reference_dropped (pre : List String) (l : String)
    (h : refUnresolved (loadLines pre) l) :
    loadLines (pre ++ [l]) = loadLines pre := by
  unfold loadLines
  rw [List.foldl_append, List.foldl_cons, List.foldl_nil]
  exact loadLine_unresolved _ l h

/-- Counterexample to C7 as stated: loading a definition file whose
value-type line references undeclared message id 2 does not fail — the load
completes, returns the same catalog as without the line, and that catalog
still holds the declared message. -/
theorem c7_counterexample :
    Dbc.load "BO_ 1 M: 8 Node\nSIG_VALTYPE_ 2 S : 1;" = Dbc.load "BO_ 1 M: 8 Node" ∧
    (Dbc.load "BO_ 1 M: 8 Node\nSIG_VALTYPE_ 2 S : 1;").msgs ≠ [] :=
  ⟨by decide, by decide⟩

/-- Concrete run of `c7_unresolved_reference_dropped`: a comment line
referencing undeclared message id 7 leaves the loaded catalog unchanged. -/
theorem c7_witness :
    loadLines ["BO_ 1 M: 8 Node", "CM_ SG_ 7 X \"c\";"] = loadLines ["BO_ 1 M: 8 Node"] :=
  c7_unresolved_reference_dropped ["BO_ 1 M: 8 Node"] "CM_ SG_ 7 X \"c\";"
    (Or.inr ⟨7, "X", "c", by decide, by decide⟩)

/-! Claim C8 — servo hub firmware sub-record -/

/-- The `len`-byte little-endian encoding of `n`. -/
def natToBytesLE : ℕ → ℕ → List ℕ
  | 0, _ => []
  | k + 1, n => n % 256 :: natToBytesLE k (n / 256)

theorem natToBytesLE_length (k n : ℕ) : (natToBytesLE k n).length = k := by
  induction k generalizing n with
  | zero => rfl
  | succ k ih => simp [natToBytesLE, ih]

theorem bytesToNatLE_natToBytesLE (k : ℕ) : ∀ n : ℕ, n < 2 ^ (8 * k) →
    bytesToNatLE (natToBytesLE k n) = n := by
  induction k with
  | zero => intro n h; interval_cases n; rfl
  | succ k ih =>
    intro n h
    have hdiv : n / 256 < 2 ^ (8 * k) := by
      have h2 : (2 : ℕ) ^ (8 * (k + 1)) = 256 * 2 ^ (8 * k) := by
        rw [Nat.mul_add, pow_add]; ring
      rw [h2] at h
      omega
    simp only [natToBytesLE, bytesToNatLE, ih (n / 256) hdiv]
    omega

theorem readUIntLE_round (k n : ℕ) (rest : List ℕ) (h : n < 2 ^ (8 * k)) :
    readUIntLE (natToBytesLE k n ++ rest) 0 k = n := by
  unfold readUIntLE
  rw [List.drop_zero, List.take_left' (natToBytesLE_length k n)]
  exact bytesToNatLE_natToBytesLE k n h

theorem alistSet_append {α β : Type} [DecidableEq α] {l : List (α × β)} {k : α} {v : β}
    (h : alistGet l k = none) : alistSet l k v = l ++ [(k, v)] := by
  induction l with
  | nil => rfl
  | cons p rest ih =>
    obtain ⟨k', w⟩ := p
    by_cases hk : k' = k
    · rw [alistGet, if_pos hk] at h; cases h
    · rw [alistGet, if_neg hk] at h
      rw [alistSet, if_neg hk, ih h]
      rfl

theorem alistGet_append_of_none {α β : Type} [DecidableEq α] {l : List (α × β)}
    (l2 : List (α × β)) {k : α} (h : alistGet l k = none) :
    alistGet (l ++ l2) k = alistGet l2 k := by
  induction l with
  | nil => rfl
  | cons p rest ih =>
    obtain ⟨k', w⟩ := p
    by_cases hk : k' = k
    · rw [alistGet, if_pos hk] at h; cases h
    · rw [alistGet, if_neg hk] at h
      rw [List.cons_append, alistGet, if_neg hk, ih h]

/-- Claim C8: a firmware-block (entry-id 1) sub-record whose CAN id encodes
device type 12 — the servo hub, registered with the default version
extraction rule — and whose 6 data bytes are [2, 5, 0, 42, 0, 0], for a servo
hub catalog whose `GET_VERSION` message exists (with a non-zero, hence JS
truthy, id) and decodes, emits a string-kind output stream named
`REV/ServoHub-<deviceInstance>/FIRMWARE` (instance = low 6 bits of the CAN
id) whose data record has value "2.5.42" and timestamp 0. -/
theorem c8_servohub_firmware (spark servohub encoder : Dbc) (st : WState)
    (canId : ℕ) (fw : Message) (dm : DecodedMessage)
    (hdev : canId / 2 ^ 24 % 32 = 12)
    (hlt : canId < 2 ^ 32)
    (hfw : servohub.msgGet "GET_VERSION" = some fw)
    (hfid : fw.id ≠ 0)
    (hdec : decode servohub fw.id ([2, 5, 0, 42, 0, 0] ++ zeros 8) = .ok (some dm))
    (hnew : alistGet st.records
      ("REV/ServoHub-" ++ toString (canId % 64) ++ "/FIRMWARE") = none) :
    processFirmwareSub (devicesFor spark servohub encoder) st
        (natToBytesLE 4 canId ++ [2, 5, 0, 42, 0, 0]) =
      .ok { records := st.records ++
              [("REV/ServoHub-" ++ toString (canId % 64) ++ "/FIRMWARE", st.nextId, "string")],
            nextId := st.nextId + 1,
            out := st.out ++
              [.control st.nextId
                  ("REV/ServoHub-" ++ toString (canId % 64) ++ "/FIRMWARE") "string" "",
                .data st.nextId "string" (.strP "2.5.42") 0],
            processed := st.processed } := by
  have hmsg : readUIntLE (natToBytesLE 4 canId ++ [2, 5, 0, 42, 0, 0]) 0 4 = canId :=
    readUIntLE_round 4 canId _ hlt
  have hdata : (((natToBytesLE 4 canId ++ [2, 5, 0, 42, 0, 0]).drop 4).take 6) =
      [2, 5, 0, 42, 0, 0] := by
    rw [List.drop_left' (natToBytesLE_length 4 canId)]
    rfl
  unfold processFirmwareSub
  rw [hmsg, hdata]
  dsimp only
  rw [hdev]
  have hdevs : devicesFor spark servohub encoder 12 =
      some (createDeviceMap servohub "REV/ServoHub-" "GET_VERSION" "STATUS_" none) := rfl
  rw [hdevs]
  dsimp only
  have hframe : (createDeviceMap servohub "REV/ServoHub-" "GET_VERSION" "STATUS_"
      none).firmwareFrameId = some fw.id := by
    unfold createDeviceMap
    rw [hfw]
    rfl
  rw [hframe]
  dsimp only
  rw [if_neg hfid]
  have hdbc : (createDeviceMap servohub "REV/ServoHub-" "GET_VERSION" "STATUS_"
      none).dbc = servohub := rfl
  rw [hdbc, hdec]
  dsimp only
  have hpfx : (createDeviceMap servohub "REV/ServoHub-" "GET_VERSION" "STATUS_"
      none).pfx = "REV/ServoHub-" := rfl
  rw [hpfx, if_pos hnew]
  unfold writeRecord writeControlRecord
  dsimp only
  rw [alistSet_append hnew, alistGet_append_of_none _ hnew]
  have hver : parseFirmwareVersion
      (createDeviceMap servohub "REV/ServoHub-" "GET_VERSION" "STATUS_" none)
      [2, 5, 0, 42, 0, 0] = "2.5.42" := rfl
  rw [hver]
  simp [alistGet, encodePayload, jsToString]

/-- The modelled servo-hub catalog used to run `c8_servohub_firmware`: one
`GET_VERSION` message with the non-zero id 1024 and no signals. -/
def servoDbcEx : Dbc := ⟨[⟨1024, "GET_VERSION", 8, "X", []⟩], [("GET_VERSION", 0)], [(1024, 0)]⟩

/-- Concrete run of `c8_servohub_firmware`: CAN id 12·2²⁴ + 3 (device type
12, instance 3) with data [2, 5, 0, 42, 0, 0] emits the string stream
`REV/ServoHub-3/FIRMWARE` with value "2.5.42" at timestamp 0. -/
theorem c8_witness :
    processFirmwareSub (devicesFor emptyDbc servoDbcEx emptyDbc) initState
        (natToBytesLE 4 (12 * 2 ^ 24 + 3) ++ [2, 5, 0, 42, 0, 0]) =
      .ok { records := [("REV/ServoHub-3/FIRMWARE", 1, "string")],
            nextId := 2,
            out := [.control 1 "REV/ServoHub-3/FIRMWARE" "string" "",
                    .data 1 "string" (.strP "2.5.42") 0],
            processed := false } := by
  have h := c8_servohub_firmware emptyDbc servoDbcEx emptyDbc initState (12 * 2 ^ 24 + 3)
    ⟨1024, "GET_VERSION", 8, "X", []⟩ ⟨1024, "GET_VERSION", []⟩
    (by decide) (by decide) (by decide) (by decide) (by decide) (by decide)
  exact h.trans (by decide)

/-! Claim C1 — output-stream identifier invariant -/

/-- The control records in an output, as (id, name, type) in emission
order. -/
def controlsOf (out : List OutRec) : List (ℕ × String × String) :=
  out.filterMap fun r =>
    match r with
    | .control i n t _ => some (i, n, t)
    | .data _ _ _ _ => none

/-- Every data record carries the identifier and declared kind of a control
record emitted strictly earlier in the output. -/
def dataMatched (out : List OutRec) : Prop :=
  ∀ k i ty p ts, out.get? k = some (.data i ty p ts) →
    ∃ j, j < k ∧ ∃ n m, out.get? j = some (.control i n ty m)

/-- The writer invariant of one conversion run: the next id is one past the
registry size, registered ids are 1..n in first-registration order, names are
registered at most once, the emitted control records correspond exactly to
the registry in order, and every data record matches an earlier control
record. -/
def Inv (st : WState) : Prop :=
  st.nextId = st.records.length + 1 ∧
  (st.records.map fun r => r.2.1) = List.range' 1 st.records.length ∧
  (st.records.map Prod.fst).Nodup ∧
  controlsOf st.out = (st.records.map fun r => (r.2.1, r.1, r.2.2)) ∧
  dataMatched st.out

theorem get?_some_lt {α : Type} {l : List α} {j : ℕ} {x : α} (h : l.get? j = some x) :
    j < l.length := by
  by_contra hn
  rw [List.get?_eq_none.2 (le_of_not_lt hn)] at h
  cases h

theorem alistGet_mem {α β : Type} [DecidableEq α] {l : List (α × β)} {k : α} {v : β}
    (h : alistGet l k = some v) : (k, v) ∈ l := by
  induction l with
  | nil => cases h
  | cons p rest ih =>
    obtain ⟨k', w⟩ := p
    by_cases hk : k' = k
    · subst hk
      rw [alistGet, if_pos rfl] at h
      obtain rfl := Option.some.inj h
      exact List.mem_cons_self _ _
    · rw [alistGet, if_neg hk] at h
      exact List.mem_cons_of_mem _ (ih h)

theorem alistGet_none_not_mem {α β : Type} [DecidableEq α] {l : List (α × β)} {k : α}
    (h : alistGet l k = none) : k ∉ l.map Prod.fst := by
  induction l with
  | nil => simp
  | cons p rest ih =>
    obtain ⟨k', w⟩ := p
    by_cases hk : k' = k
    · rw [alistGet, if_pos hk] at h; cases h
    · rw [alistGet, if_neg hk] at h
      simp only [List.map_cons, List.mem_cons]
      rintro (rfl | hmem)
      · exact hk rfl
      · exact ih h hmem

theorem controlsOf_append (out l : List OutRec) :
    controlsOf (out ++ l) = controlsOf out ++ controlsOf l := by
  simp [controlsOf]

theorem mem_controlsOf {out : List OutRec} {i : ℕ} {n t : String} :
    (i, n, t) ∈ controlsOf out ↔ ∃ m, OutRec.control i n t m ∈ out := by
  unfold controlsOf
  rw [List.mem_filterMap]
  constructor
  · rintro ⟨a, ha, hfa⟩
    cases a with
    | control i' n' t' m' =>
      simp only [Option.some.injEq, Prod.mk.injEq] at hfa
      obtain ⟨rfl, rfl, rfl⟩ := hfa
      exact ⟨m', ha⟩
    | data i' t' p' ts' => simp at hfa
  · rintro ⟨m, hm⟩
    exact ⟨.control i n t m, hm, rfl⟩

theorem dataMatched_append_control {out : List OutRec} (h : dataMatched out)
    (i : ℕ) (n t m : String) : dataMatched (out ++ [.control i n t m]) := by
  intro k i' ty p ts hk
  have hklen : k < out.length + 1 := by simpa using get?_some_lt hk
  rcases Nat.lt_or_ge k out.length with hlt | hge
  · rw [List.get?_append hlt] at hk
    obtain ⟨j, hjk, n', m', hj⟩ := h k i' ty p ts hk
    exact ⟨j, hjk, n', m', by rw [List.get?_append (lt_trans hjk hlt)]; exact hj⟩
  · have hkeq : k = out.length := by omega
    subst hkeq
    rw [List.get?_concat_length] at hk
    simp at hk

theorem dataMatched_append_data {out : List OutRec} (h : dataMatched out) {i : ℕ}
    {ty : String} (p : Payload) (ts : ℕ)
    (hex : ∃ j n m, out.get? j = some (.control i n ty m)) :
    dataMatched (out ++ [.data i ty p ts]) := by
  intro k i' ty' p' ts' hk
  have hklen : k < out.length + 1 := by simpa using get?_some_lt hk
  rcases Nat.lt_or_ge k out.length with hlt | hge
  · rw [List.get?_append hlt] at hk
    obtain ⟨j, hjk, n', m', hj⟩ := h k i' ty' p' ts' hk
    exact ⟨j, hjk, n', m', by rw [List.get?_append (lt_trans hjk hlt)]; exact hj⟩
  · have hkeq : k = out.length := by omega
    subst hkeq
    rw [List.get?_concat_length] at hk
    have hinj := Option.some.inj hk
    injection hinj with h1 h2 h3 h4
    subst h1; subst h2
    obtain ⟨j, n, m, hj⟩ := hex
    have hjlen : j < out.length := get?_some_lt hj
    exact ⟨j, hjlen, n, m, by rw [List.get?_append hjlen]; exact hj⟩

theorem inv_control_exists {st : WState} (h : Inv st) {n : String} {id : ℕ} {ty : String}
    (hg : alistGet st.records n = some (id, ty)) :
    ∃ j nm m, st.out.get? j = some (.control id nm ty m) := by
  obtain ⟨-, -, -, h4, -⟩ := h
  have hmem : (n, id, ty) ∈ st.records := alistGet_mem hg
  have hctl : (id, n, ty) ∈ controlsOf st.out := by
    rw [h4]
    exact List.mem_map.2 ⟨(n, id, ty), hmem, rfl⟩
  obtain ⟨m, hm⟩ := mem_controlsOf.1 hctl
  obtain ⟨j, hj⟩ := List.mem_iff_get?.1 hm
  exact ⟨j, n, m, hj⟩

theorem inv_writeRecord (st : WState) (n : String) (v : JsValue) (ts : ℕ) (h : Inv st) :
    Inv (writeRecord st n v ts) := by
  unfold writeRecord
  cases hg : alistGet st.records n with
  | none => exact h
  | some pr =>
    obtain ⟨id, ty⟩ := pr
    dsimp only
    cases hpo : encodePayload ty v with
    | none => exact h
    | some p =>
      obtain ⟨h1, h2, h3, h4, h5⟩ := h
      refine ⟨h1, h2, h3, ?_, ?_⟩
      · show controlsOf (st.out ++ [.data id ty p (ts * 1000)]) = _
        rw [controlsOf_append]
        have hnil : controlsOf [OutRec.data id ty p (ts * 1000)] = [] := rfl
        rw [hnil, List.append_nil]
        exact h4
      · exact dataMatched_append_data h5 p (ts * 1000)
          (inv_control_exists ⟨h1, h2, h3, h4, h5⟩ hg)

theorem inv_declare (st : WState) (name ty md : String)
    (hnew : alistGet st.records name = none) (h : Inv st) :
    Inv { writeControlRecord st st.nextId name ty md with nextId := st.nextId + 1 } := by
  obtain ⟨h1, h2, h3, h4, h5⟩ := h
  unfold writeControlRecord
  refine ⟨?_, ?_, ?_, ?_, ?_⟩
  · show st.nextId + 1 = (alistSet st.records name (st.nextId, ty)).length + 1
    rw [alistSet_append hnew]
    simp [h1]
  · show (alistSet st.records name (st.nextId, ty)).map (fun r => r.2.1) =
      List.range' 1 (alistSet st.records name (st.nextId, ty)).length
    rw [alistSet_append hnew, List.map_append, h2, List.length_append]
    simp only [List.map_cons, List.map_nil, List.length_cons, List.length_nil]
    rw [h1, List.range'_concat]
    simp [Nat.add_comm]
  · show ((alistSet st.records name (st.nextId, ty)).map Prod.fst).Nodup
    rw [alistSet_append hnew, List.map_append]
    rw [List.nodup_append]
    refine ⟨h3, by simp, ?_⟩
    intro x hx hy
    simp only [List.map_cons, List.map_nil, List.mem_singleton] at hy
    subst hy
    exact alistGet_none_not_mem hnew hx
  · show controlsOf (st.out ++ [.control st.nextId name ty md]) = _
    rw [controlsOf_append, h4, alistSet_append hnew, List.map_append]
    rfl
  · exact dataMatched_append_control h5 st.nextId name ty md

theorem inv_processed (st : WState) (b : Bool) (h : Inv st) :
    Inv { st with processed := b } := h

/-- The call-site pattern of both transcoder paths: declare the stream if the
name is unseen (consuming the next id), then write one value. -/
theorem inv_declareWrite (st : WState) (name ty md : String) (v : JsValue) (ts : ℕ)
    (h : Inv st) :
    Inv (writeRecord
      (if alistGet st.records name = none then
        { writeControlRecord st st.nextId name ty md with nextId := st.nextId + 1 }
      else st) name v ts) := by
  apply inv_writeRecord
  split
  · next hnew => exact inv_declare st _ _ _ hnew h
  · exact h

theorem foldl_inv {α : Type} (f : WState → α → WState)
    (hf : ∀ st a, Inv st → Inv (f st a)) :
    ∀ (l : List α) (st : WState), Inv st → Inv (l.foldl f st) := by
  intro l
  induction l with
  | nil => intro st h; exact h
  | cons a as ih => intro st h; exact ih _ (hf st a h)

theorem inv_processFirmwareSub (devices : ℕ → Option Device) (st : WState)
    (chunk : List ℕ) {st' : WState} (h : Inv st)
    (hp : processFirmwareSub devices st chunk = .ok st') : Inv st' := by
  unfold processFirmwareSub at hp
  dsimp only at hp
  split at hp
  · obtain rfl := Except.ok.inj hp; exact h
  · split at hp
    · obtain rfl := Except.ok.inj hp; exact h
    · split at hp
      · obtain rfl := Except.ok.inj hp; exact h
      · split at hp
        · cases hp
        · obtain rfl := Except.ok.inj hp; exact h
        · obtain rfl := Except.ok.inj hp
          exact inv_declareWrite st _ _ _ _ _ h

theorem inv_foldFirmware (devices : ℕ → Option Device) :
    ∀ (chunks : List (List ℕ)) (st st' : WState), Inv st →
      foldFirmware devices st chunks = .ok st' → Inv st' := by
  intro chunks
  induction chunks with
  | nil =>
    intro st st' h hp
    obtain rfl := Except.ok.inj hp
    exact h
  | cons c cs ih =>
    intro st st' h hp
    unfold foldFirmware at hp
    cases hps : processFirmwareSub devices st c with
    | error e => rw [hps] at hp; cases hp
    | ok st1 =>
      rw [hps] at hp
      exact ih st1 st' (inv_processFirmwareSub devices st c h hps) hp

theorem inv_processPeriodicSub (devices : ℕ → Option Device) (st : WState)
    (chunk : List ℕ) (h : Inv st) : Inv (processPeriodicSub devices st chunk) := by
  unfold processPeriodicSub
  dsimp only
  split
  · exact h
  · split
    · exact h
    · split
      · exact h
      · exact h
      · apply foldl_inv
        · intro st2 entry h2
          dsimp only
          split
          · exact h2
          · exact inv_declareWrite st2 _ _ _ _ _ h2
        · exact h

theorem inv_runLoop (devices : ℕ → Option Device) (data : List ℕ) :
    ∀ (fuel cursor : ℕ) (st st' : WState), Inv st →
      runLoop devices data cursor st fuel = .ok st' → Inv st' := by
  intro fuel
  induction fuel with
  | zero =>
    intro c st st' h hp
    obtain rfl := Except.ok.inj hp
    exact h
  | succ f ih =>
    intro cursor st st' h hp
    unfold runLoop at hp
    by_cases hc : cursor < data.length
    · rw [if_pos hc] at hp
      dsimp only at hp
      cases hr1 : readVariableInt data (cursor + 1) (readByte data cursor % 4 + 1) with
      | error e => rw [hr1] at hp; cases hp
      | ok pair =>
        obtain ⟨entryId, c1⟩ := pair
        rw [hr1] at hp
        dsimp only at hp
        cases hr2 : readVariableInt data c1 (readByte data cursor / 4 % 4 + 1) with
        | error e => rw [hr2] at hp; cases hp
        | ok pair2 =>
          obtain ⟨payloadSize, c2⟩ := pair2
          rw [hr2] at hp
          dsimp only at hp
          by_cases hb : c2 + payloadSize > data.length
          · rw [if_pos hb] at hp
            obtain rfl := Except.ok.inj hp
            exact h
          · rw [if_neg hb] at hp
            by_cases h1 : entryId = 1
            · rw [if_pos h1] at hp
              cases hff : foldFirmware devices { st with processed := true }
                  (subChunks ((data.drop c2).take payloadSize) 10) with
              | error e => rw [hff] at hp; cases hp
              | ok st1 =>
                rw [hff] at hp
                exact ih _ st1 st'
                  (inv_foldFirmware devices _ _ st1 (inv_processed st true h) hff) hp
            · rw [if_neg h1] at hp
              by_cases h2 : entryId = 2
              · rw [if_pos h2] at hp
                exact ih _ _ st'
                  (foldl_inv _ (fun st2 a h2 => inv_processPeriodicSub devices st2 a h2) _ _
                    (inv_processed st true h)) hp
              · rw [if_neg h2] at hp
                exact ih _ st st' h hp
    · rw [if_neg hc] at hp
      obtain rfl := Except.ok.inj hp
      exact h

theorem inv_initState : Inv initState :=
  ⟨rfl, rfl, List.nodup_nil, rfl, fun k i ty p ts hk => by simp [initState] at hk⟩

/-- Claim C1: in every conversion run, output-stream identifiers are assigned
sequentially starting at 1 in first-seen (control-record emission) order; a
name is assigned an identifier at most once (control-record names are
distinct, so an identifier is never reused for a different name or
renumbered); and every data record carries the identifier and declared kind
of a control record previously emitted for its stream. -/
theorem c1_stream_id_invariant (spark servohub encoder : Dbc) (data : List ℕ)
    (res : List OutRec) (h : parseREVLOG spark servohub encoder data = .ok res) :
    ((controlsOf res).map fun c => c.1) = List.range' 1 (controlsOf res).length ∧
    ((controlsOf res).map fun c => c.2.1).Nodup ∧
    dataMatched res := by
  unfold parseREVLOG at h
  by_cases hlen : data.length < 3
  · rw [if_pos hlen] at h; cases h
  · rw [if_neg hlen] at h
    cases hr : runLoop (devicesFor spark servohub encoder) data 0 initState data.length with
    | error e => rw [hr] at h; cases h
    | ok st =>
      rw [hr] at h
      dsimp only at h
      by_cases hpr : st.processed = true
      · rw [if_pos hpr] at h
        obtain rfl := Except.ok.inj h
        obtain ⟨h1, h2, h3, h4, h5⟩ :=
          inv_runLoop (devicesFor spark servohub encoder) data data.length 0 initState st
            inv_initState hr
        refine ⟨?_, ?_, h5⟩
        · rw [h4, List.map_map]
          simp only [List.length_map]
          exact h2
        · rw [h4, List.map_map]
          exact h3
      · rw [if_neg hpr] at h; cases h

/-- Concrete run of `c1_stream_id_invariant` on the input [0, 1, 0] (a single
empty firmware block): the empty record list trivially satisfies all three
invariant parts. -/
theorem c1_witness :
    ((controlsOf []).map fun c => c.1) = List.range' 1 (controlsOf []).length ∧
    ((controlsOf []).map fun c => c.2.1).Nodup ∧
    dataMatched ([] : List OutRec) :=
  c1_stream_id_invariant emptyDbc emptyDbc emptyDbc [0, 1, 0] [] (by decide)

end Revlog
